import Mathlib

/-!
Verification of the group seat booking core of the Movie-Booking-Api
repository.  The Python source (app/model/model.py, app/schemas/schemas.py,
app/routers/user.py) is shallowly embedded below: SQLAlchemy tables become
lists of records inside a `DB` state, SELECT queries become filters plus a
stable sort, and each route handler becomes a function from the pre-state to
the post-state paired with an `Except` result.  A handler that raises
`HTTPException` inside a transaction rolls the transaction back, so every
error branch returns the unchanged pre-state.
-/

namespace MovieBooking

/-- Status of a per-show seat record (the `status` string column of
`show_seats`, which is either "available" or "booked"). -/
inductive SeatStatus where
  | available
  | booked
deriving DecidableEq, Repr

/-- Row of the `movies` table. -/
structure Movie where
  id : Nat
  title : String
  duration_minutes : Nat
deriving DecidableEq, Repr

/-- Row of the `theaters` table. -/
structure Theater where
  id : Nat
  name : String
  location : Option String
deriving DecidableEq, Repr

/-- Row of the `halls` table. -/
structure Hall where
  id : Nat
  theater_id : Nat
  name : String
deriving DecidableEq, Repr

/-- Row of the `seats` table (hall layout).  The surrogate integer primary
key is never read by any route, so it is not modelled. -/
structure Seat where
  hall_id : Nat
  row_index : Nat
  seat_number : Nat
  is_aisle : Bool
deriving DecidableEq, Repr

/-- Row of the `shows` table.  `start_time` is a timestamp in minutes and
the `Numeric(8,2)` price is modelled as an integer amount. -/
structure Show where
  id : Nat
  movie_id : Nat
  hall_id : Nat
  start_time : Int
  price : Int
deriving DecidableEq, Repr

/-- Row of the `show_seats` table (per-show seat inventory).  The surrogate
primary key is never read by any route, so it is not modelled. -/
structure ShowSeat where
  show_id : Nat
  row_index : Nat
  seat_number : Nat
  status : SeatStatus
  booking_id : Option Nat
deriving DecidableEq, Repr

/-- Row of the `bookings` table.  `created_at` is a wall-clock default
(`func.now()`) that no booking logic reads, so it is not modelled. -/
structure Booking where
  id : Nat
  show_id : Nat
  group_name : Option String
deriving DecidableEq, Repr

/-- The database state: one list per table, plus the autoincrement counters
for the primary keys that the routes actually read back after a flush. -/
structure DB where
  movies : List Movie
  theaters : List Theater
  halls : List Hall
  seats : List Seat
  shows : List Show
  show_seats : List ShowSeat
  bookings : List Booking
  next_hall_id : Nat
  next_show_id : Nat
  next_booking_id : Nat
deriving DecidableEq, Repr

/-- Pydantic `BookingRequest`: note that `seats_requested` is a plain `int`
with no lower bound, hence it is an `Int` here. -/
structure BookingRequest where
  show_id : Nat
  group_name : Option String
  seats_requested : Int
deriving DecidableEq, Repr

/-- Pydantic `BookingResponse`. -/
structure BookingResponse where
  booking_id : Nat
  seats : List (Nat × Nat)
deriving DecidableEq, Repr

/-- One suggestion record produced by `suggest_other_shows`. -/
structure Suggestion where
  show_id : Nat
  start_time : Int
  seats : List (Nat × Nat)
deriving DecidableEq, Repr

/-- Failure signals of the `/book` route: 404 show not found, 409 with
suggestions when no contiguous block exists, and the retryable 409 conflict
raised inside the booking transaction. -/
inductive BookErr where
  | notFound
  | noBlock (suggestions : List Suggestion)
  | conflict
deriving DecidableEq, Repr

/-- Failure signals of the catalog routes (404 / 400). -/
inductive ApiErr where
  | notFound
  | badRequest
deriving DecidableEq, Repr

/-- Pydantic `HallCreateRow`.  The schema constrains `row_index` with
`conint(ge=1)` and `seat_count` with `conint(ge=6)`; the handler re-checks
the seat count itself, which is the check modelled in `create_hall`. -/
structure HallCreateRow where
  row_index : Nat
  seat_count : Nat
  aisle_seats : List Nat
deriving DecidableEq, Repr

/-- Pydantic `HallCreate`. -/
structure HallCreate where
  name : String
  rows : List HallCreateRow
deriving DecidableEq, Repr

/-- Pydantic `ShowCreate`. -/
structure ShowCreate where
  movie_id : Nat
  hall_id : Nat
  start_time : Int
  price : Int
deriving DecidableEq, Repr

/-- The lexicographic (row_index, seat_number) order realised by the
`order_by(ShowSeat.row_index, ShowSeat.seat_number)` clause of the seat
queries. -/
def seatLe (a b : ShowSeat) : Prop :=
  a.row_index < b.row_index ∨ (a.row_index = b.row_index ∧ a.seat_number ≤ b.seat_number)

instance : DecidableRel seatLe := fun a b => by
  unfold seatLe; exact inferInstance

instance : IsTotal ShowSeat seatLe := by
  constructor; intro a b; unfold seatLe; omega

instance : IsTrans ShowSeat seatLe := by
  constructor; intro a b c; unfold seatLe; omega

/-- The ascending start-time order realised by `order_by(Show.start_time)`
in the suggestion query. -/
def showLe (a b : Show) : Prop :=
  a.start_time ≤ b.start_time

instance : DecidableRel showLe := fun a b => by
  unfold showLe; exact inferInstance

instance : IsTotal Show showLe := by
  constructor; intro a b; unfold showLe; omega

instance : IsTrans Show showLe := by
  constructor; intro a b c; unfold showLe; omega

/-- The query `select(ShowSeat).where(ShowSeat.show_id == show_id)
.order_by(ShowSeat.row_index, ShowSeat.seat_number)`. -/
def seatsForShow (db : DB) (show_id : Nat) : List ShowSeat :=
  List.insertionSort seatLe (db.show_seats.filter fun s => decide (s.show_id = show_id))

/-- `rows[r].append(sn)` on a `defaultdict(list)` kept as an association
list in key insertion order: append `sn` to the list of the first entry with
key `r`, or add a new entry at the end. -/
def insertRow (acc : List (Nat × List Nat)) (r : Nat) (sn : Nat) : List (Nat × List Nat) :=
  match acc with
  | [] => [(r, [sn])]
  | (r0, l0) :: rest =>
    if r0 = r then (r0, l0 ++ [sn]) :: rest else (r0, l0) :: insertRow rest r sn

/-- The grouping loop of `find_contiguous_in_show`: walk the ordered seat
list and collect the seat numbers of the available seats per row, in a
`defaultdict(list)` whose keys appear in insertion order. -/
def groupAvail (seats : List ShowSeat) : List (Nat × List Nat) :=
  seats.foldl
    (fun acc s =>
      if s.status = SeatStatus.available then insertRow acc s.row_index s.seat_number else acc)
    []

/-- Effective stop index of a Python slice `l[i:stop]` over a list of the
given length: a negative stop counts from the end, and the stop is clamped
into the list. -/
def pySliceStop (len : Nat) (stop : Int) : Nat :=
  if stop < 0 then (max 0 ((len : Int) + stop)).toNat else min stop.toNat len

/-- Python slice `l[i : stop]` with a nonnegative start index. -/
def pySlice (l : List Nat) (i : Nat) (stop : Int) : List Nat :=
  (l.take (pySliceStop l.length stop)).drop i

/-- The window check
`all(window[j] + 1 == window[j+1] for j in range(len(window)-1))`. -/
def isConsecutive : List Nat → Bool
  | [] => true
  | [_] => true
  | a :: b :: t => (a + 1 = b : Bool) && isConsecutive (b :: t)

/-- Number of iterations of `for i in range(len(seat_list) - group_size + 1)`;
the subtraction is over the integers and a nonpositive bound yields an empty
range. -/
def windowCount (len : Nat) (group_size : Int) : Nat :=
  ((len : Int) - group_size + 1).toNat

/-- The sliding-window loop body over a list of window start indices:
return the first window `sorted[i : i + group_size]` that is strictly
consecutive. -/
def findRun (sorted : List Nat) (group_size : Int) : List Nat → Option (List Nat)
  | [] => none
  | i :: rest =>
    let w := pySlice sorted i ((i : Int) + group_size)
    if isConsecutive w then some w else findRun sorted group_size rest

/-- Per-row part of `find_contiguous_in_show`: `seat_list.sort()` followed
by the sliding-window search for a strictly consecutive window of length
`group_size`. -/
def findInRow (seat_list : List Nat) (group_size : Int) : Option (List Nat) :=
  let sorted := List.insertionSort (· ≤ ·) seat_list
  findRun sorted group_size (List.range (windowCount sorted.length group_size))

/-- `find_contiguous_in_show` from app/routers/user.py: fetch the seats of
the show ordered by (row, seat number); if there are none return `None`;
group the available seat numbers by row; return, for the first row (in dict
insertion order) whose sorted seat numbers contain a strictly consecutive
window of length `group_size`, that window tagged with the row index. -/
def find_contiguous_in_show (db : DB) (show_id : Nat) (group_size : Int) :
    Option (List (Nat × Nat)) :=
  let all_seats := seatsForShow db show_id
  if all_seats.isEmpty then none
  else
    (groupAvail all_seats).findSome? fun rs =>
      (findInRow rs.2 group_size).map fun w => w.map fun sn => (rs.1, sn)

/-- `suggest_other_shows` from app/routers/user.py: select the shows whose
start time lies between `target.start_time - time_window_minutes` and
`target.start_time + time_window_minutes` (inclusive, as SQL BETWEEN),
ordered by start time ascending, and keep, for each candidate on which the
finder returns a truthy (non-`None`, non-empty) block, the record
`{show_id, start_time, seats}`. -/
def suggest_other_shows (db : DB) (target : Show) (group_size : Int)
    (time_window_minutes : Int) : List Suggestion :=
  let start := target.start_time - time_window_minutes
  let stop := target.start_time + time_window_minutes
  let candidates := List.insertionSort showLe
    (db.shows.filter fun s => decide (start ≤ s.start_time ∧ s.start_time ≤ stop))
  candidates.filterMap fun s =>
    match find_contiguous_in_show db s.id group_size with
    | some [] => none
    | some c => some { show_id := s.id, start_time := s.start_time, seats := c }
    | none => none

/-- Primary-key lookup `db.get(Show, show_id)`. -/
def getShow (db : DB) (show_id : Nat) : Option Show :=
  db.shows.find? fun s => decide (s.id = show_id)

/-- The re-read under lock in `book_group` (`q_check`): all show-seat
records of the show whose (row_index, seat_number) pair is one of the
candidate pairs. -/
def seatsNow (db : DB) (show_id : Nat) (contiguous : List (Nat × Nat)) : List ShowSeat :=
  db.show_seats.filter fun s =>
    decide (s.show_id = show_id ∧ (s.row_index, s.seat_number) ∈ contiguous)

/-- The availability re-check of `book_group` under the row lock: true
exactly when some re-read seat is no longer available or the number of
re-read records differs from the number of candidate pairs. -/
def seatCheckFails (db : DB) (show_id : Nat) (contiguous : List (Nat × Nat)) : Bool :=
  (seatsNow db show_id contiguous).any (fun s => decide (s.status ≠ SeatStatus.available))
    || decide ((seatsNow db show_id contiguous).length ≠ contiguous.length)

/-- The committed writes of the `book_group` transaction: insert the
booking row under the next autoincrement id, and set every show-seat record
keyed by a candidate (row, seat-number) pair to booked with a back-reference
to that booking. -/
def commitDB (db : DB) (payload : BookingRequest) (contiguous : List (Nat × Nat)) : DB :=
  { db with
    bookings := db.bookings ++
      [{ id := db.next_booking_id, show_id := payload.show_id,
         group_name := payload.group_name }]
    next_booking_id := db.next_booking_id + 1
    show_seats := db.show_seats.map fun s =>
      if decide (s.show_id = payload.show_id ∧
          (s.row_index, s.seat_number) ∈ contiguous) then
        { s with status := SeatStatus.booked, booking_id := some db.next_booking_id }
      else s }

/-- `book_group` from app/routers/user.py.  Errors roll the enclosing
transaction back, so they return the unchanged pre-state.  On success the
transaction writes of `commitDB` are applied. -/
def book_group (db : DB) (payload : BookingRequest) :
    DB × Except BookErr BookingResponse :=
  match getShow db payload.show_id with
  | none => (db, Except.error BookErr.notFound)
  | some sh =>
    match find_contiguous_in_show db payload.show_id payload.seats_requested with
    | none =>
      (db, Except.error (BookErr.noBlock
        (suggest_other_shows db sh payload.seats_requested 180)))
    | some contiguous =>
      if seatCheckFails db payload.show_id contiguous then
        (db, Except.error BookErr.conflict)
      else
        (commitDB db payload contiguous,
          Except.ok { booking_id := db.next_booking_id, seats := contiguous })

/-- Result shape of the `/bookings/{booking_id}` route body. -/
structure BookingView where
  id : Nat
  show_id : Nat
  group_name : Option String
  seats : List (Nat × Nat)
deriving DecidableEq, Repr

/-- `get_booking` from app/routers/user.py: look the booking up by primary
key, and list the (row_index, seat_number) pairs of all show-seat records
whose `booking_id` equals the requested id. -/
def get_booking (db : DB) (booking_id : Nat) : Option BookingView :=
  match db.bookings.find? (fun b => decide (b.id = booking_id)) with
  | none => none
  | some b =>
    some { id := b.id, show_id := b.show_id, group_name := b.group_name,
           seats := (db.show_seats.filter fun s =>
             decide (s.booking_id = some booking_id)).map
               fun s => (s.row_index, s.seat_number) }

/-- Seats created for one `HallCreateRow`: seat numbers
`range(1, seat_count + 1)`, flagged as aisle seats when listed. -/
def rowSeats (hall_id : Nat) (r : HallCreateRow) : List Seat :=
  (List.range' 1 r.seat_count).map fun seat_num =>
    { hall_id := hall_id, row_index := r.row_index, seat_number := seat_num,
      is_aisle := decide (seat_num ∈ r.aisle_seats) }

/-- `create_hall` from app/routers/user.py: 404 when the theater is absent;
400 when some requested row has fewer than 6 seats (the exception aborts the
transaction, so nothing is persisted); otherwise insert the hall and one
seat per row and seat number. -/
def create_hall (db : DB) (theater_id : Nat) (payload : HallCreate) :
    DB × Except ApiErr Hall :=
  match db.theaters.find? (fun t => decide (t.id = theater_id)) with
  | none => (db, Except.error ApiErr.notFound)
  | some _ =>
    if payload.rows.any (fun r => decide (r.seat_count < 6)) then
      (db, Except.error ApiErr.badRequest)
    else
      let h : Hall := { id := db.next_hall_id, theater_id := theater_id, name := payload.name }
      ({ db with
          halls := db.halls ++ [h]
          next_hall_id := db.next_hall_id + 1
          seats := db.seats ++ payload.rows.foldr (fun r acc => rowSeats h.id r ++ acc) [] },
        Except.ok h)

/-- `create_show` from app/routers/user.py: 404 when the movie or the hall
is absent; otherwise insert the show and copy every hall seat into a
show-seat record with status available (and no booking reference). -/
def create_show (db : DB) (payload : ShowCreate) : DB × Except ApiErr Show :=
  match db.movies.find? (fun m => decide (m.id = payload.movie_id)),
      db.halls.find? (fun h => decide (h.id = payload.hall_id)) with
  | some _, some _ =>
    let s : Show := { id := db.next_show_id, movie_id := payload.movie_id,
                      hall_id := payload.hall_id, start_time := payload.start_time,
                      price := payload.price }
    ({ db with
        shows := db.shows ++ [s]
        next_show_id := db.next_show_id + 1
        show_seats := db.show_seats ++
          (db.seats.filter fun hs => decide (hs.hall_id = payload.hall_id)).map fun hs =>
            { show_id := s.id, row_index := hs.row_index, seat_number := hs.seat_number,
              status := SeatStatus.available, booking_id := none } },
      Except.ok s)
  | _, _ => (db, Except.error ApiErr.notFound)

/-- Database statements issued by the booking routes, used to state
frame/read-only properties.  Each `db.execute(...)` of the source maps to
one operation. -/
inductive DbOp where
  | selectShows
  | selectShowSeats (show_id : Nat)
  | lockShowRows (show_id : Nat) (rows : List Nat)
  | insertBooking (b : Booking)
  | updateSeats (show_id : Nat) (pairs : List (Nat × Nat)) (bid : Nat)
deriving DecidableEq, Repr

/-- Whether a database operation writes table rows. -/
def DbOp.isWrite : DbOp → Bool
  | insertBooking _ => true
  | updateSeats _ _ _ => true
  | _ => false

/-- Whether a database operation acquires a row lock (`with_for_update`). -/
def DbOp.isLock : DbOp → Bool
  | lockShowRows _ _ => true
  | _ => false

/-- Effect of one database operation on the state: SELECTs and lock
acquisitions change nothing; the two writes mirror the insert and the
UPDATE of `book_group`. -/
def applyOp (db : DB) : DbOp → DB
  | DbOp.selectShows => db
  | DbOp.selectShowSeats _ => db
  | DbOp.lockShowRows _ _ => db
  | DbOp.insertBooking b => { db with bookings := db.bookings ++ [b] }
  | DbOp.updateSeats sid pairs bid =>
    { db with show_seats := db.show_seats.map fun s =>
        if decide (s.show_id = sid ∧ (s.row_index, s.seat_number) ∈ pairs) then
          { s with status := SeatStatus.booked, booking_id := some bid }
        else s }

/-- Database statements issued by one call of `find_contiguous_in_show`:
a single plain SELECT over the show seats. -/
def find_contiguous_ops (show_id : Nat) : List DbOp :=
  [DbOp.selectShowSeats show_id]

/-- Database statements issued by one call of `suggest_other_shows`: the
candidate SELECT over shows, followed by the finder SELECT for each
candidate in order. -/
def suggest_other_shows_ops (db : DB) (target : Show) (group_size : Int)
    (time_window_minutes : Int) : List DbOp :=
  let start := target.start_time - time_window_minutes
  let stop := target.start_time + time_window_minutes
  let candidates := List.insertionSort showLe
    (db.shows.filter fun s => decide (start ≤ s.start_time ∧ s.start_time ≤ stop))
  DbOp.selectShows :: candidates.foldr (fun s acc => find_contiguous_ops s.id ++ acc) []

/-- First value stored under key `r` in an association list (the value a
Python dict lookup would return). -/
def lookupRow : List (Nat × List Nat) → Nat → List Nat
  | [], _ => []
  | (r0, l0) :: rest, r => if r0 = r then l0 else lookupRow rest r

/-- Keys of an association list, in order. -/
def rowKeys (acc : List (Nat × List Nat)) : List Nat :=
  acc.map fun rs => rs.1

/-- There is a run of `kN` available seats of the show starting at seat
number `v` of row `r`: for every offset below `kN` some seat record of the
show carries that row, the successive seat number, and status available. -/
def availRun (db : DB) (show_id r v kN : Nat) : Prop :=
  ∀ j < kN, ∃ s ∈ db.show_seats,
    s.show_id = show_id ∧ s.row_index = r ∧ s.seat_number = v + j ∧
    s.status = SeatStatus.available

/-- One successful `book_group` call, as a step relation on states. -/
def bookStep (db db' : DB) : Prop :=
  ∃ payload resp, book_group db payload = (db', Except.ok resp)

/-- Any number of successful `book_group` calls. -/
def Reach : DB → DB → Prop :=
  Relation.ReflTransGen bookStep

/-- The UNIQUE (show_id, row_index, seat_number) database constraint
`uq_show_row_seat` of the `show_seats` table. -/
def SeatKeysNodup (db : DB) : Prop :=
  (db.show_seats.map fun s => (s.show_id, s.row_index, s.seat_number)).Nodup

/-- Every stored booking id is below the autoincrement counter (true of
every state the autoincrement primary key can produce). -/
def BookingIdsBounded (db : DB) : Prop :=
  (∀ b ∈ db.bookings, b.id < db.next_booking_id) ∧
  (∀ s ∈ db.show_seats, ∀ b, s.booking_id = some b → b < db.next_booking_id)

/-- A seat record references a booking only if it is booked. -/
def RefImpliesBooked (db : DB) : Prop :=
  ∀ s ∈ db.show_seats, s.booking_id ≠ none → s.status = SeatStatus.booked

/-- Concrete state for the scripted scenario: one show with a single row 1
of seats 1 to 10 where seats 3 and 7 are booked and all others available. -/
def dbC3 : DB :=
  { movies := [], theaters := [], halls := [], seats := []
    shows := [{ id := 1, movie_id := 1, hall_id := 1, start_time := 0, price := 100 }]
    show_seats := (List.range' 1 10).map fun n =>
      { show_id := 1, row_index := 1, seat_number := n,
        status := if n = 3 ∨ n = 7 then SeatStatus.booked else SeatStatus.available,
        booking_id := none }
    bookings := [], next_hall_id := 1, next_show_id := 2, next_booking_id := 1 }

/-- Concrete state with one show whose single row 1 has seats 1 to 6, all
available. -/
def dbOneRow : DB :=
  { movies := [], theaters := [], halls := [], seats := []
    shows := [{ id := 1, movie_id := 1, hall_id := 1, start_time := 0, price := 100 }]
    show_seats := (List.range' 1 6).map fun n =>
      { show_id := 1, row_index := 1, seat_number := n,
        status := SeatStatus.available, booking_id := none }
    bookings := [], next_hall_id := 1, next_show_id := 2, next_booking_id := 1 }

/-- Concrete state whose seat inventory VIOLATES the unique
(show, row, seat) constraint: seat (1,1) of show 1 is stored twice.  Used
to exercise the defensive seat-count re-check of `book_group`. -/
def dbDup : DB :=
  { movies := [], theaters := [], halls := [], seats := []
    shows := [{ id := 1, movie_id := 1, hall_id := 1, start_time := 0, price := 100 }]
    show_seats :=
      [{ show_id := 1, row_index := 1, seat_number := 1,
         status := SeatStatus.available, booking_id := none },
       { show_id := 1, row_index := 1, seat_number := 1,
         status := SeatStatus.available, booking_id := none },
       { show_id := 1, row_index := 1, seat_number := 2,
         status := SeatStatus.available, booking_id := none }]
    bookings := [], next_hall_id := 1, next_show_id := 2, next_booking_id := 1 }

/-- Concrete state with three shows: the target at time 0, one neighbour
inside the 180-minute window at time 60 with free seats, and one show far
outside the window at time 500. -/
def dbSuggest : DB :=
  { movies := [], theaters := [], halls := [], seats := []
    shows :=
      [{ id := 1, movie_id := 1, hall_id := 1, start_time := 0, price := 100 },
       { id := 2, movie_id := 2, hall_id := 1, start_time := 60, price := 100 },
       { id := 3, movie_id := 1, hall_id := 1, start_time := 500, price := 100 }]
    show_seats :=
      ((List.range' 1 6).map fun n =>
        { show_id := 2, row_index := 1, seat_number := n,
          status := SeatStatus.available, booking_id := none }) ++
      ((List.range' 1 6).map fun n =>
        { show_id := 3, row_index := 1, seat_number := n,
          status := SeatStatus.available, booking_id := none })
    bookings := [], next_hall_id := 1, next_show_id := 4, next_booking_id := 1 }

/-- The target show record of `dbSuggest`. -/
def showTarget : Show :=
  { id := 1, movie_id := 1, hall_id := 1, start_time := 0, price := 100 }

/-- Concrete state with one theater and one movie for the hall and show
creation witnesses. -/
def dbTheater : DB :=
  { movies := [{ id := 1, title := "m", duration_minutes := 90 }]
    theaters := [{ id := 1, name := "t", location := none }]
    halls := [], seats := [], shows := [], show_seats := [], bookings := []
    next_hall_id := 1, next_show_id := 1, next_booking_id := 1 }

/-- Hall payload with a single row 1 of 6 seats and no aisle seats. -/
def hallPayload : HallCreate :=
  { name := "h", rows := [{ row_index := 1, seat_count := 6, aisle_seats := [] }] }

/-! ## Lemmas about the booking transaction -/

theorem seatCheckFails_eq_false_iff {db : DB} {sid : Nat} {c : List (Nat × Nat)} :
    seatCheckFails db sid c = false ↔
      (∀ s ∈ seatsNow db sid c, s.status = SeatStatus.available) ∧
        (seatsNow db sid c).length = c.length := by
  unfold seatCheckFails
  simp [List.any_eq_false]

theorem seatCheckFails_eq_true_iff {db : DB} {sid : Nat} {c : List (Nat × Nat)} :
    seatCheckFails db sid c = true ↔
      (∃ s ∈ seatsNow db sid c, s.status ≠ SeatStatus.available) ∨
        (seatsNow db sid c).length ≠ c.length := by
  unfold seatCheckFails
  simp [List.any_eq_true]

theorem book_group_ok_iff {db db' : DB} {p : BookingRequest} {r : BookingResponse} :
    book_group db p = (db', Except.ok r) ↔
      ∃ c, (∃ sh, getShow db p.show_id = some sh) ∧
        find_contiguous_in_show db p.show_id p.seats_requested = some c ∧
        seatCheckFails db p.show_id c = false ∧
        db' = commitDB db p c ∧
        r = { booking_id := db.next_booking_id, seats := c } := by
  unfold book_group
  rcases hg : getShow db p.show_id with _ | sh
  · simp [hg]
  · rcases hf : find_contiguous_in_show db p.show_id p.seats_requested with _ | c
    · simp [hf]
    · rcases hc : seatCheckFails db p.show_id c with _ | _
      · simp [hf, hc]
        constructor
        · rintro ⟨h1, h2⟩
          exact ⟨h1.symm, h2.symm⟩
        · rintro ⟨h1, h2⟩
          exact ⟨h1.symm, h2.symm⟩
      · simp [hf, hc]

theorem book_group_conflict_iff {db : DB} {p : BookingRequest} :
    (book_group db p).2 = Except.error BookErr.conflict ↔
      ∃ c, (∃ sh, getShow db p.show_id = some sh) ∧
        find_contiguous_in_show db p.show_id p.seats_requested = some c ∧
        seatCheckFails db p.show_id c = true := by
  unfold book_group
  rcases hg : getShow db p.show_id with _ | sh
  · simp [hg]
  · rcases hf : find_contiguous_in_show db p.show_id p.seats_requested with _ | c
    · simp [hf]
    · rcases hc : seatCheckFails db p.show_id c with _ | _
      · simp [hf, hc]
      · simp [hf, hc]

theorem book_group_error_fst {db : DB} {p : BookingRequest} {e : BookErr}
    (h : (book_group db p).2 = Except.error e) : (book_group db p).1 = db := by
  unfold book_group at h ⊢
  rcases hg : getShow db p.show_id with _ | sh
  · simp [hg]
  · rcases hf : find_contiguous_in_show db p.show_id p.seats_requested with _ | c
    · simp [hg, hf]
    · rcases hc : seatCheckFails db p.show_id c with _ | _
      · simp [hg, hf, hc] at h
      · simp [hg, hf, hc]

/-! ## Lemmas about the contiguous block finder -/

theorem mem_seatsForShow {db : DB} {sid : Nat} {s : ShowSeat} :
    s ∈ seatsForShow db sid ↔ s ∈ db.show_seats ∧ s.show_id = sid := by
  unfold seatsForShow
  rw [List.mem_insertionSort]
  simp [List.mem_filter]

theorem isConsecutive_eq_true_iff (l : List Nat) :
    isConsecutive l = true ↔ l = List.range' (l.headD 0) l.length := by
  induction l with
  | nil => simp [isConsecutive]
  | cons a t ih =>
    cases t with
    | nil => simp [isConsecutive, List.range']
    | cons b t2 =>
      have hdef : isConsecutive (a :: b :: t2) = (decide (a + 1 = b) && isConsecutive (b :: t2)) :=
        rfl
      rw [hdef, Bool.and_eq_true, decide_eq_true_iff]
      simp only [List.headD_cons, List.length_cons] at ih ⊢
      constructor
      · rintro ⟨h1, h2⟩
        subst h1
        have h3 := ih.mp h2
        rw [List.range'_succ]
        rw [← h3]
      · intro h
        rw [List.range'_succ] at h
        have h2 : b :: t2 = List.range' (a + 1) (t2.length + 1) :=
          (List.cons.injEq _ _ _ _).mp h |>.2
        rw [List.range'_succ] at h2
        have hb : b = a + 1 := (List.cons.injEq _ _ _ _).mp h2 |>.1
        subst hb
        refine ⟨rfl, ih.mpr ?_⟩
        rw [List.range'_succ]
        exact h2

theorem pySlice_eq_take_drop (l : List Nat) (i : Nat) {k : Int} (hk : 0 ≤ k) :
    pySlice l i ((i : Int) + k) = (l.drop i).take k.toNat := by
  unfold pySlice pySliceStop
  have h0 : ¬ ((i : Int) + k < 0) := by omega
  rw [if_neg h0]
  have h1 : ((i : Int) + k).toNat = i + k.toNat := by omega
  rw [h1]
  have h2 : l.take (min (i + k.toNat) l.length) = l.take (i + k.toNat) := by
    rw [← List.take_take, List.take_length]
  rw [h2, List.drop_take]
  congr 1
  omega

theorem pySlice_sublist (l : List Nat) (i : Nat) (stop : Int) :
    (pySlice l i stop).Sublist l := by
  unfold pySlice
  exact ((List.drop_sublist _ _).trans (List.take_sublist _ _))

theorem findRun_eq_some {s : List Nat} {k : Int} {idxs : List Nat} {w : List Nat}
    (h : findRun s k idxs = some w) :
    isConsecutive w = true ∧ ∃ i ∈ idxs, w = pySlice s i ((i : Int) + k) := by
  induction idxs with
  | nil => simp [findRun] at h
  | cons i rest ih =>
    unfold findRun at h
    by_cases hc : isConsecutive (pySlice s i ((i : Int) + k)) = true
    · simp only [hc, if_true] at h
      cases h
      exact ⟨hc, i, List.mem_cons_self i rest, rfl⟩
    · simp only [hc, if_false, Bool.false_eq_true] at h
      obtain ⟨h1, i', hmem, h2⟩ := ih h
      exact ⟨h1, i', List.mem_cons_of_mem _ hmem, h2⟩

theorem findInRow_eq_some {l : List Nat} {k : Int} {w : List Nat}
    (h : findInRow l k = some w) :
    isConsecutive w = true ∧ (∀ x ∈ w, x ∈ l) ∧
      ∃ i, i < windowCount (List.insertionSort (· ≤ ·) l).length k ∧
        w = pySlice (List.insertionSort (· ≤ ·) l) i ((i : Int) + k) := by
  unfold findInRow at h
  obtain ⟨h1, i, hmem, h2⟩ := findRun_eq_some h
  rw [List.mem_range] at hmem
  refine ⟨h1, ?_, i, hmem, h2⟩
  intro x hx
  rw [h2] at hx
  have := (pySlice_sublist (List.insertionSort (· ≤ ·) l) i ((i : Int) + k)).subset hx
  rwa [List.mem_insertionSort] at this

theorem mem_entry_insertRow {acc : List (Nat × List Nat)} {r0 sn0 : Nat}
    {r : Nat} {lr : List Nat} {sn : Nat}
    (he : (r, lr) ∈ insertRow acc r0 sn0) (hs : sn ∈ lr) :
    (r = r0 ∧ sn = sn0) ∨ ∃ lr', (r, lr') ∈ acc ∧ sn ∈ lr' := by
  induction acc with
  | nil =>
    have hdef : insertRow [] r0 sn0 = [(r0, [sn0])] := rfl
    rw [hdef, List.mem_singleton, Prod.mk.injEq] at he
    obtain ⟨h1, h2⟩ := he
    subst h1; subst h2
    rw [List.mem_singleton] at hs
    exact Or.inl ⟨rfl, hs⟩
  | cons hd tl ih =>
    obtain ⟨ra, la⟩ := hd
    have hdef : insertRow ((ra, la) :: tl) r0 sn0 =
        if ra = r0 then (ra, la ++ [sn0]) :: tl else (ra, la) :: insertRow tl r0 sn0 := rfl
    rw [hdef] at he
    by_cases hr : ra = r0
    · rw [if_pos hr] at he
      subst hr
      rcases List.mem_cons.mp he with he1 | he2
      · rw [Prod.mk.injEq] at he1
        obtain ⟨h1, h2⟩ := he1
        subst h1
        rw [h2, List.mem_append, List.mem_singleton] at hs
        rcases hs with hs | hs
        · exact Or.inr ⟨la, List.mem_cons_self _ _, hs⟩
        · exact Or.inl ⟨rfl, hs⟩
      · exact Or.inr ⟨lr, List.mem_cons_of_mem _ he2, hs⟩
    · rw [if_neg hr] at he
      rcases List.mem_cons.mp he with he1 | he2
      · rw [Prod.mk.injEq] at he1
        obtain ⟨h1, h2⟩ := he1
        subst h1; subst h2
        exact Or.inr ⟨lr, List.mem_cons_self _ _, hs⟩
      · rcases ih he2 with h | ⟨lr', hm, hs'⟩
        · exact Or.inl h
        · exact Or.inr ⟨lr', List.mem_cons_of_mem _ hm, hs'⟩

theorem mem_entry_groupAvail {L : List ShowSeat} {r : Nat} {lr : List Nat} {sn : Nat}
    (he : (r, lr) ∈ groupAvail L) (hs : sn ∈ lr) :
    ∃ s ∈ L, s.status = SeatStatus.available ∧ s.row_index = r ∧ s.seat_number = sn := by
  unfold groupAvail at he
  suffices h : ∀ (acc : List (Nat × List Nat)),
      (∀ r' lr' sn', (r', lr') ∈ acc → sn' ∈ lr' →
        ∃ s ∈ L, s.status = SeatStatus.available ∧ s.row_index = r' ∧ s.seat_number = sn') →
      ∀ (sub : List ShowSeat), (∀ s ∈ sub, s ∈ L) →
      ∀ r' lr' sn',
        (r', lr') ∈ sub.foldl
          (fun acc s =>
            if s.status = SeatStatus.available then insertRow acc s.row_index s.seat_number
            else acc) acc →
        sn' ∈ lr' →
        ∃ s ∈ L, s.status = SeatStatus.available ∧ s.row_index = r' ∧ s.seat_number = sn' by
    exact h [] (by simp) L (fun _ hs => hs) r lr sn he hs
  intro acc hacc sub
  induction sub generalizing acc with
  | nil =>
    intro hsub r' lr' sn' hmem hsn
    exact hacc r' lr' sn' hmem hsn
  | cons s tl ih =>
    intro hsub r' lr' sn' hmem hsn
    simp only [List.foldl_cons] at hmem
    by_cases hst : s.status = SeatStatus.available
    · rw [if_pos hst] at hmem
      refine ih (insertRow acc s.row_index s.seat_number) ?_
        (fun x hx => hsub x (List.mem_cons_of_mem _ hx)) r' lr' sn' hmem hsn
      intro r2 lr2 sn2 hm2 hsn2
      rcases mem_entry_insertRow hm2 hsn2 with ⟨h1, h2⟩ | ⟨lr3, hm3, hsn3⟩
      · exact ⟨s, hsub s (List.mem_cons_self _ _), hst, h1.symm ▸ rfl, h2.symm ▸ rfl⟩
      · exact hacc r2 lr3 sn2 hm3 hsn3
    · rw [if_neg hst] at hmem
      exact ih acc hacc (fun x hx => hsub x (List.mem_cons_of_mem _ hx)) r' lr' sn' hmem hsn

theorem find_contiguous_some_parts {db : DB} {sid : Nat} {k : Int}
    {block : List (Nat × Nat)}
    (h : find_contiguous_in_show db sid k = some block) :
    ∃ r w, block = w.map (fun sn => (r, sn)) ∧ isConsecutive w = true ∧
      ∀ sn ∈ w, ∃ s ∈ db.show_seats,
        s.show_id = sid ∧ s.row_index = r ∧ s.seat_number = sn ∧
        s.status = SeatStatus.available := by
  unfold find_contiguous_in_show at h
  by_cases he : (seatsForShow db sid).isEmpty
  · rw [if_pos he] at h
    exact Option.noConfusion h
  · rw [if_neg he] at h
    obtain ⟨rs, hrs, hsome⟩ := List.exists_of_findSome?_eq_some h
    obtain ⟨r, lr⟩ := rs
    rw [Option.map_eq_some'] at hsome
    obtain ⟨w, hw, hblock⟩ := hsome
    obtain ⟨hcons, hsub, _⟩ := findInRow_eq_some hw
    refine ⟨r, w, hblock.symm, hcons, ?_⟩
    intro sn hsn
    obtain ⟨s, hsL, hav, hrow, hseat⟩ := mem_entry_groupAvail hrs (hsub sn hsn)
    obtain ⟨hsdb, hsid⟩ := mem_seatsForShow.mp hsL
    exact ⟨s, hsdb, hsid, hrow, hseat, hav⟩

theorem find_contiguous_some_shape {db : DB} {sid : Nat} {k : Int}
    {block : List (Nat × Nat)}
    (h : find_contiguous_in_show db sid k = some block) :
    ∃ r v, block = (List.range' v block.length).map (fun sn => (r, sn)) := by
  obtain ⟨r, w, hblock, hcons, _⟩ := find_contiguous_some_parts h
  refine ⟨r, w.headD 0, ?_⟩
  rw [hblock, List.length_map]
  rw [isConsecutive_eq_true_iff] at hcons
  exact congrArg _ hcons

theorem find_contiguous_some_length {db : DB} {sid : Nat} {k : Int}
    {block : List (Nat × Nat)} (hk : 1 ≤ k)
    (h : find_contiguous_in_show db sid k = some block) :
    block.length = k.toNat := by
  unfold find_contiguous_in_show at h
  by_cases he : (seatsForShow db sid).isEmpty
  · rw [if_pos he] at h
    exact Option.noConfusion h
  · rw [if_neg he] at h
    obtain ⟨rs, hrs, hsome⟩ := List.exists_of_findSome?_eq_some h
    obtain ⟨r, lr⟩ := rs
    rw [Option.map_eq_some'] at hsome
    obtain ⟨w, hw, hblock⟩ := hsome
    obtain ⟨_, _, i, hi, hwi⟩ := findInRow_eq_some hw
    rw [← hblock, List.length_map]
    set srt := List.insertionSort (· ≤ ·) lr with hsrt
    have hle : (i : Int) + k ≤ srt.length := by
      unfold windowCount at hi
      omega
    rw [hwi, pySlice_eq_take_drop _ _ (by omega)]
    rw [List.length_take, List.length_drop]
    omega

/-- C3: on the concrete inventory of one show with a single row 1 holding
seats 1 to 10 where seats 3 and 7 are booked, the finder with group size 3
returns exactly the block (1,4), (1,5), (1,6). -/
theorem C3_scenario :
    find_contiguous_in_show dbC3 1 3 = some [(1, 4), (1, 5), (1, 6)] := by
  decide

/-- C6: the code does NOT reject group sizes below 1.  With requested size
0 against a show with available seats, the finder is still invoked (and
returns an empty block), the booking transaction commits, and a Booking
record with an empty seat set is created. -/
theorem C6_zero_group_size_not_rejected :
    find_contiguous_in_show dbOneRow 1 0 = some [] ∧
    (book_group dbOneRow { show_id := 1, group_name := none, seats_requested := 0 }).2 =
      Except.ok { booking_id := 1, seats := [] } ∧
    (book_group dbOneRow { show_id := 1, group_name := none, seats_requested := 0 }).1.bookings =
      [{ id := 1, show_id := 1, group_name := none }] :=
  ⟨rfl, rfl, rfl⟩

/-- C2, counterexample to the unrestricted claim: a successful `book_group`
call (with requested group size 0, which the operation accepts) whose
booking owns an empty seat set. -/
theorem C2_counterexample : ∃ db' resp,
    book_group dbOneRow { show_id := 1, group_name := none, seats_requested := 0 } =
      (db', Except.ok resp) ∧ resp.seats = [] :=
  ⟨_, _, rfl, rfl⟩

theorem mem_seatsNow {db : DB} {sid : Nat} {c : List (Nat × Nat)} {s : ShowSeat} :
    s ∈ seatsNow db sid c ↔
      s ∈ db.show_seats ∧ s.show_id = sid ∧ (s.row_index, s.seat_number) ∈ c := by
  unfold seatsNow
  simp [List.mem_filter]

/-- C2 (amended to requested group sizes of at least 1, since the operation
also accepts size 0 and then commits an empty booking): every Booking
created by a successful `book_group` call with requested size at least 1
owns a seat set that is non-empty, lies in a single row with strictly
consecutive seat numbers (it is literally a map over a `range'`), and every
seat record it covers was available in the pre-commit state. -/
theorem C2_booking_block_valid {db db' : DB} {p : BookingRequest} {resp : BookingResponse}
    (hk : 1 ≤ p.seats_requested)
    (h : book_group db p = (db', Except.ok resp)) :
    resp.seats ≠ [] ∧
    (∃ r v, resp.seats = (List.range' v p.seats_requested.toNat).map fun sn => (r, sn)) ∧
    (∀ pr ∈ resp.seats, ∃ s ∈ db.show_seats,
      s.show_id = p.show_id ∧ (s.row_index, s.seat_number) = pr ∧
      s.status = SeatStatus.available) ∧
    (∀ s ∈ db.show_seats, s.show_id = p.show_id →
      (s.row_index, s.seat_number) ∈ resp.seats → s.status = SeatStatus.available) := by
  obtain ⟨c, ⟨sh, hsh⟩, hf, hchk, hdb, hresp⟩ := book_group_ok_iff.mp h
  have hseats : resp.seats = c := by rw [hresp]
  have hlen := find_contiguous_some_length hk hf
  refine ⟨?_, ?_, ?_, ?_⟩
  · rw [hseats]
    intro hnil
    rw [hnil] at hlen
    simp only [List.length_nil] at hlen
    omega
  · obtain ⟨r, v, hshape⟩ := find_contiguous_some_shape hf
    refine ⟨r, v, ?_⟩
    rw [hseats, ← hlen]
    exact hshape
  · intro pr hpr
    rw [hseats] at hpr
    obtain ⟨r, w, hblock, _, havail⟩ := find_contiguous_some_parts hf
    rw [hblock, List.mem_map] at hpr
    obtain ⟨sn, hsn, hpr⟩ := hpr
    obtain ⟨s, hsdb, hsid, hrow, hseat, hav⟩ := havail sn hsn
    refine ⟨s, hsdb, hsid, ?_, hav⟩
    rw [hrow, hseat, hpr]
  · intro s hs hsid hpr
    rw [hseats] at hpr
    have hmem : s ∈ seatsNow db p.show_id c := mem_seatsNow.mpr ⟨hs, hsid, hpr⟩
    exact (seatCheckFails_eq_false_iff.mp hchk).1 s hmem

/-- Concrete instantiation of `C2_booking_block_valid` at a booking of two
seats in the six-seat single-row state. -/
theorem C2_witness :
    ([(1, 1), (1, 2)] : List (Nat × Nat)) ≠ [] ∧
    (∃ r v, ([(1, 1), (1, 2)] : List (Nat × Nat)) =
      (List.range' v (2 : Int).toNat).map fun sn => (r, sn)) ∧
    (∀ pr ∈ ([(1, 1), (1, 2)] : List (Nat × Nat)), ∃ s ∈ dbOneRow.show_seats,
      s.show_id = 1 ∧ (s.row_index, s.seat_number) = pr ∧
      s.status = SeatStatus.available) ∧
    (∀ s ∈ dbOneRow.show_seats, s.show_id = 1 →
      (s.row_index, s.seat_number) ∈ ([(1, 1), (1, 2)] : List (Nat × Nat)) →
      s.status = SeatStatus.available) :=
  @C2_booking_block_valid dbOneRow
    (book_group dbOneRow { show_id := 1, group_name := none, seats_requested := 2 }).1
    { show_id := 1, group_name := none, seats_requested := 2 }
    { booking_id := 1, seats := [(1, 1), (1, 2)] }
    (by decide) rfl

/-- C5: the availability re-check of the booking transaction.  A retryable
Conflict is raised exactly when, for the candidate block, some re-read seat
record is not available or the number of re-read records differs from the
candidate size; every failure returns the pre-state unchanged (transaction
rollback, so no seat mutation and no Booking survives); and a commit
happens only when every candidate seat is present (count match) and
available. -/
theorem C5_conflict_check (db : DB) (p : BookingRequest) :
    ((book_group db p).2 = Except.error BookErr.conflict ↔
      ∃ c, (∃ sh, getShow db p.show_id = some sh) ∧
        find_contiguous_in_show db p.show_id p.seats_requested = some c ∧
        ((∃ s ∈ seatsNow db p.show_id c, s.status ≠ SeatStatus.available) ∨
          (seatsNow db p.show_id c).length ≠ c.length)) ∧
    (∀ e, (book_group db p).2 = Except.error e → (book_group db p).1 = db) ∧
    (∀ db' resp, book_group db p = (db', Except.ok resp) →
      (∀ s ∈ seatsNow db p.show_id resp.seats, s.status = SeatStatus.available) ∧
      (seatsNow db p.show_id resp.seats).length = resp.seats.length) := by
  refine ⟨?_, ?_, ?_⟩
  · rw [book_group_conflict_iff]
    constructor
    · rintro ⟨c, hsh, hf, hchk⟩
      exact ⟨c, hsh, hf, seatCheckFails_eq_true_iff.mp hchk⟩
    · rintro ⟨c, hsh, hf, hbad⟩
      exact ⟨c, hsh, hf, seatCheckFails_eq_true_iff.mpr hbad⟩
  · intro e he
    exact book_group_error_fst he
  · intro db' resp hok
    obtain ⟨c, _, hf, hchk, hdb, hresp⟩ := book_group_ok_iff.mp hok
    have hseats : resp.seats = c := by rw [hresp]
    rw [hseats]
    obtain ⟨h1, h2⟩ := seatCheckFails_eq_false_iff.mp hchk
    exact ⟨h1, h2⟩

/-- Concrete instantiation of `C5_conflict_check`: in the state whose
inventory stores seat (1,1) twice, the defensive count re-check fires, the
request fails with Conflict, and the state is returned unchanged. -/
theorem C5_witness :
    (book_group dbDup { show_id := 1, group_name := none, seats_requested := 2 }).1 = dbDup :=
  (C5_conflict_check dbDup { show_id := 1, group_name := none, seats_requested := 2 }).2.1
    BookErr.conflict rfl

/-! ## Lemmas for the reachability invariants of C1 -/

theorem bookStep_parts {db db' : DB} (h : bookStep db db') :
    ∃ (sid : Nat) (c : List (Nat × Nat)) (bid : Nat),
      (∀ s ∈ db.show_seats, s.show_id = sid → (s.row_index, s.seat_number) ∈ c →
        s.status = SeatStatus.available) ∧
      db'.show_seats = db.show_seats.map (fun s =>
        if decide (s.show_id = sid ∧ (s.row_index, s.seat_number) ∈ c) then
          { s with status := SeatStatus.booked, booking_id := some bid }
        else s) := by
  obtain ⟨p, resp, hok⟩ := h
  obtain ⟨c, _, hf, hchk, hdb, _⟩ := book_group_ok_iff.mp hok
  refine ⟨p.show_id, c, db.next_booking_id, ?_, ?_⟩
  · intro s hs hsid hpr
    exact (seatCheckFails_eq_false_iff.mp hchk).1 s (mem_seatsNow.mpr ⟨hs, hsid, hpr⟩)
  · rw [hdb]
    rfl

theorem bookStep_booked_frozen {db db' : DB} (h : bookStep db db') :
    ∀ (i : Nat) (s : ShowSeat), db.show_seats[i]? = some s → s.status = SeatStatus.booked →
      db'.show_seats[i]? = some s := by
  obtain ⟨sid, c, bid, hav, hmap⟩ := bookStep_parts h
  intro i s hi hb
  have hmem : s ∈ db.show_seats := by
    obtain ⟨hlt, heq⟩ := List.getElem?_eq_some_iff.mp hi
    exact heq ▸ List.getElem_mem hlt
  rw [hmap, List.getElem?_map, hi, Option.map_some']
  by_cases hm : s.show_id = sid ∧ (s.row_index, s.seat_number) ∈ c
  · exfalso
    have := hav s hmem hm.1 hm.2
    rw [hb] at this
    exact SeatStatus.noConfusion this
  · rw [if_neg (by simpa using hm)]

theorem bookStep_preserves_ref {db db' : DB} (hinv : RefImpliesBooked db)
    (h : bookStep db db') : RefImpliesBooked db' := by
  obtain ⟨sid, c, bid, hav, hmap⟩ := bookStep_parts h
  intro s' hs' hne
  rw [hmap, List.mem_map] at hs'
  obtain ⟨s, hs, hfs⟩ := hs'
  by_cases hm : s.show_id = sid ∧ (s.row_index, s.seat_number) ∈ c
  · rw [if_pos (by simpa using hm)] at hfs
    rw [← hfs]
  · rw [if_neg (by simpa using hm)] at hfs
    rw [← hfs]
    exact hinv s hs (hfs ▸ hne)

theorem reach_preserves_ref {db0 db : DB} (hinv : RefImpliesBooked db0)
    (h : Reach db0 db) : RefImpliesBooked db := by
  induction h with
  | refl => exact hinv
  | tail _ hstep ih => exact bookStep_preserves_ref ih hstep

theorem reach_booked_frozen {db1 db2 : DB} (h : Reach db1 db2) :
    ∀ (i : Nat) (s : ShowSeat), db1.show_seats[i]? = some s → s.status = SeatStatus.booked →
      db2.show_seats[i]? = some s := by
  induction h with
  | refl => exact fun i s hi _ => hi
  | tail _ hstep ih =>
    intro i s hi hb
    exact bookStep_booked_frozen hstep i s (ih i s hi hb) hb

/-- C1: starting from any state created by show creation (every seat record
has no booking reference) and running any number of `book_group` calls, a
seat record that references a booking keeps that same reference and stays
booked forever (so at most one Booking ever references it, and its status
transitions available to booked at most once); a record that is booked is
never modified again; and at every reachable state the sets of records
carrying two distinct booking ids are disjoint (a record carries at most
one booking id). -/
theorem C1_at_most_one_booking {db0 db1 db2 : DB}
    (h0 : ∀ s ∈ db0.show_seats, s.booking_id = none)
    (h01 : Reach db0 db1) (h12 : Reach db1 db2) :
    (∀ (i : Nat) (s : ShowSeat) (b : Nat), db1.show_seats[i]? = some s →
      s.booking_id = some b →
      db2.show_seats[i]? = some s ∧ s.status = SeatStatus.booked) ∧
    (∀ (i : Nat) (s : ShowSeat), db1.show_seats[i]? = some s →
      s.status = SeatStatus.booked → db2.show_seats[i]? = some s) ∧
    (∀ (i : Nat) (s : ShowSeat) (b1 b2 : Nat), db2.show_seats[i]? = some s →
      s.booking_id = some b1 → s.booking_id = some b2 → b1 = b2) := by
  have hinv0 : RefImpliesBooked db0 := fun s hs hne => absurd (h0 s hs) hne
  have hinv1 : RefImpliesBooked db1 := reach_preserves_ref hinv0 h01
  refine ⟨?_, ?_, ?_⟩
  · intro i s b hi hb
    have hmem : s ∈ db1.show_seats := by
      obtain ⟨hlt, heq⟩ := List.getElem?_eq_some_iff.mp hi
      exact heq ▸ List.getElem_mem hlt
    have hbooked : s.status = SeatStatus.booked :=
      hinv1 s hmem (by rw [hb]; exact Option.some_ne_none b)
    exact ⟨reach_booked_frozen h12 i s hi hbooked, hbooked⟩
  · exact reach_booked_frozen h12
  · intro i s b1 b2 _ hb1 hb2
    rw [hb1] at hb2
    exact (Option.some.injEq b1 b2).mp hb2

/-- Concrete instantiation of `C1_at_most_one_booking` at the freshly
created ten-seat show state with empty reachability chains. -/
theorem C1_witness :
    (∀ (i : Nat) (s : ShowSeat) (b : Nat), dbC3.show_seats[i]? = some s →
      s.booking_id = some b →
      dbC3.show_seats[i]? = some s ∧ s.status = SeatStatus.booked) ∧
    (∀ (i : Nat) (s : ShowSeat), dbC3.show_seats[i]? = some s →
      s.status = SeatStatus.booked → dbC3.show_seats[i]? = some s) ∧
    (∀ (i : Nat) (s : ShowSeat) (b1 b2 : Nat), dbC3.show_seats[i]? = some s →
      s.booking_id = some b1 → s.booking_id = some b2 → b1 = b2) :=
  @C1_at_most_one_booking dbC3 dbC3 dbC3 (by decide)
    Relation.ReflTransGen.refl Relation.ReflTransGen.refl

/-! ## Lemmas for the read-only suggestion engine (C9) -/

theorem applyOp_of_not_write {db : DB} {op : DbOp} (h : op.isWrite = false) :
    applyOp db op = db := by
  cases op with
  | selectShows => rfl
  | selectShowSeats _ => rfl
  | lockShowRows _ _ => rfl
  | insertBooking _ => exact absurd h (by simp [DbOp.isWrite])
  | updateSeats _ _ _ => exact absurd h (by simp [DbOp.isWrite])

theorem foldl_applyOp_of_reads {ops : List DbOp}
    (h : ∀ op ∈ ops, op.isWrite = false) :
    ∀ db : DB, List.foldl applyOp db ops = db := by
  induction ops with
  | nil => intro db; rfl
  | cons op rest ih =>
    intro db
    rw [List.foldl_cons, applyOp_of_not_write (h op (List.mem_cons_self _ _))]
    exact ih (fun o ho => h o (List.mem_cons_of_mem _ ho)) db

theorem mem_suggest_ops {db : DB} {target : Show} {k w : Int} {op : DbOp}
    (h : op ∈ suggest_other_shows_ops db target k w) :
    op = DbOp.selectShows ∨ ∃ sid, op = DbOp.selectShowSeats sid := by
  unfold suggest_other_shows_ops at h
  rcases List.mem_cons.mp h with h | h
  · exact Or.inl h
  · right
    generalize (List.insertionSort showLe
      (db.shows.filter fun s =>
        decide (target.start_time - w ≤ s.start_time ∧
          s.start_time ≤ target.start_time + w))) = cand at h
    induction cand with
    | nil => simp at h
    | cons c rest ih =>
      rw [List.foldr_cons] at h
      rcases List.mem_append.mp h with h | h
      · unfold find_contiguous_ops at h
        rw [List.mem_singleton] at h
        exact ⟨c.id, h⟩
      · exact ih h

/-- C9: `suggest_other_shows` is read-only.  Every database statement it
issues (the candidate SELECT plus one finder SELECT per candidate) neither
writes nor acquires a lock, and replaying its statement trace over any
state leaves every show-seat, booking, and show record — the whole state —
unchanged. -/
theorem C9_suggest_read_only (db : DB) (target : Show) (k w : Int) :
    (∀ op ∈ suggest_other_shows_ops db target k w,
      op.isWrite = false ∧ op.isLock = false) ∧
    List.foldl applyOp db (suggest_other_shows_ops db target k w) = db := by
  have hops : ∀ op ∈ suggest_other_shows_ops db target k w, op.isWrite = false := by
    intro op hop
    rcases mem_suggest_ops hop with h | ⟨sid, h⟩ <;> rw [h] <;> rfl
  refine ⟨?_, foldl_applyOp_of_reads hops db⟩
  intro op hop
  refine ⟨hops op hop, ?_⟩
  rcases mem_suggest_ops hop with h | ⟨sid, h⟩ <;> rw [h] <;> rfl

/-- Concrete instantiation of `C9_suggest_read_only`: the trace of the
suggestion query around the target show leaves the three-show state
unchanged. -/
theorem C9_witness :
    List.foldl applyOp dbSuggest (suggest_other_shows_ops dbSuggest showTarget 2 180) =
      dbSuggest :=
  (C9_suggest_read_only dbSuggest showTarget 2 180).2

/-! ## Lemmas for hall creation and show-seat materialization (C10) -/

theorem create_hall_ok {db db' : DB} {tid : Nat} {payload : HallCreate} {h : Hall}
    (hok : create_hall db tid payload = (db', Except.ok h)) :
    h.id = db.next_hall_id ∧
    (∀ r ∈ payload.rows, ¬ r.seat_count < 6) ∧
    db'.seats = db.seats ++ payload.rows.foldr (fun r acc => rowSeats h.id r ++ acc) [] := by
  unfold create_hall at hok
  rcases hfind : db.theaters.find? (fun t => decide (t.id = tid)) with _ | t
  · rw [hfind] at hok
    simp at hok
  · rw [hfind] at hok
    by_cases hany : payload.rows.any (fun r => decide (r.seat_count < 6)) = true
    · rw [if_pos hany] at hok
      simp at hok
    · rw [if_neg hany] at hok
      rw [Prod.mk.injEq] at hok
      obtain ⟨h1, h2⟩ := hok
      have hhall : ({ id := db.next_hall_id, theater_id := tid, name := payload.name } : Hall)
          = h := Except.ok.inj h2
      rw [Bool.not_eq_true, List.any_eq_false] at hany
      refine ⟨by rw [← hhall], ?_, ?_⟩
      · intro r hr
        have := hany r hr
        simpa using this
      · rw [← h1, ← hhall]

theorem create_show_ok {db db' : DB} {p : ShowCreate} {sh : Show}
    (hok : create_show db p = (db', Except.ok sh)) :
    sh.id = db.next_show_id ∧
    db'.show_seats = db.show_seats ++
      (db.seats.filter fun hs => decide (hs.hall_id = p.hall_id)).map (fun hs =>
        { show_id := sh.id, row_index := hs.row_index, seat_number := hs.seat_number,
          status := SeatStatus.available, booking_id := none }) := by
  unfold create_show at hok
  rcases hm : db.movies.find? (fun m => decide (m.id = p.movie_id)) with _ | m
  · rw [hm] at hok
    simp at hok
  · rcases hh : db.halls.find? (fun hl => decide (hl.id = p.hall_id)) with _ | hl
    · rw [hm, hh] at hok
      simp at hok
    · rw [hm, hh] at hok
      rw [Prod.mk.injEq] at hok
      obtain ⟨h1, h2⟩ := hok
      have hshow : ({ id := db.next_show_id, movie_id := p.movie_id, hall_id := p.hall_id,
                      start_time := p.start_time, price := p.price } : Show)
          = sh := Except.ok.inj h2
      refine ⟨by rw [← hshow], ?_⟩
      rw [← h1, ← hshow]

theorem mem_rowSeats {hid : Nat} {r : HallCreateRow} {n : Nat}
    (hn : n ∈ List.range' 1 r.seat_count) :
    ({ hall_id := hid, row_index := r.row_index, seat_number := n,
       is_aisle := decide (n ∈ r.aisle_seats) } : Seat) ∈ rowSeats hid r := by
  unfold rowSeats
  exact List.mem_map.mpr ⟨n, hn, rfl⟩

theorem mem_rows_foldr {hid : Nat} {rows : List HallCreateRow} {r : HallCreateRow} {x : Seat}
    (hr : r ∈ rows) (hx : x ∈ rowSeats hid r) :
    x ∈ rows.foldr (fun r2 acc => rowSeats hid r2 ++ acc) [] := by
  induction rows with
  | nil => exact absurd hr (List.not_mem_nil r)
  | cons a tl ih =>
    rw [List.foldr_cons, List.mem_append]
    rcases List.mem_cons.mp hr with h | h
    · exact Or.inl (h ▸ hx)
    · exact Or.inr (ih h)

/-- C10: `create_hall` fails (with the transaction rolled back, so no hall
and no seats are persisted) whenever some requested row has fewer than 6
seats; on success every requested row has at least 6 seats and the hall is
materialized with seats numbered consecutively from 1 up to the row seat
count; and a show created over that hall copies each of those seats into
its per-show inventory as an available show-seat record. -/
theorem C10_min_row_size (db : DB) (tid : Nat) (payload : HallCreate) :
    ((∃ r ∈ payload.rows, r.seat_count < 6) →
      (create_hall db tid payload).1 = db ∧
      ∃ e, (create_hall db tid payload).2 = Except.error e) ∧
    (∀ db' h, create_hall db tid payload = (db', Except.ok h) →
      (∀ r ∈ payload.rows, 6 ≤ r.seat_count) ∧
      (∀ r ∈ payload.rows, ∀ n ∈ List.range' 1 r.seat_count,
        ∃ s ∈ db'.seats, s.hall_id = h.id ∧ s.row_index = r.row_index ∧
          s.seat_number = n)) ∧
    (∀ db' h, create_hall db tid payload = (db', Except.ok h) →
      ∀ p2 db'' sh, p2.hall_id = h.id → create_show db' p2 = (db'', Except.ok sh) →
        ∀ r ∈ payload.rows, ∀ n ∈ List.range' 1 r.seat_count,
          ∃ ss ∈ db''.show_seats, ss.show_id = sh.id ∧ ss.row_index = r.row_index ∧
            ss.seat_number = n ∧ ss.status = SeatStatus.available ∧
            ss.booking_id = none) := by
  have hseat : ∀ db' h, create_hall db tid payload = (db', Except.ok h) →
      ∀ r ∈ payload.rows, ∀ n ∈ List.range' 1 r.seat_count,
        ({ hall_id := h.id, row_index := r.row_index, seat_number := n,
           is_aisle := decide (n ∈ r.aisle_seats) } : Seat) ∈ db'.seats := by
    intro db' h hok r hr n hn
    obtain ⟨_, _, hseats⟩ := create_hall_ok hok
    rw [hseats, List.mem_append]
    exact Or.inr (mem_rows_foldr hr (mem_rowSeats hn))
  refine ⟨?_, ?_, ?_⟩
  · rintro ⟨r, hr, hbad⟩
    have hany : payload.rows.any (fun r2 => decide (r2.seat_count < 6)) = true :=
      List.any_eq_true.mpr ⟨r, hr, by simpa using hbad⟩
    have hres : create_hall db tid payload = (db, Except.error ApiErr.notFound) ∨
        create_hall db tid payload = (db, Except.error ApiErr.badRequest) := by
      unfold create_hall
      rcases hfind : db.theaters.find? (fun t => decide (t.id = tid)) with _ | t
      · left
        rw [hfind]
      · right
        rw [hfind, if_pos hany]
    rcases hres with hres | hres <;> rw [hres] <;> exact ⟨rfl, _, rfl⟩
  · intro db' h hok
    obtain ⟨_, hge, _⟩ := create_hall_ok hok
    refine ⟨fun r hr => by have := hge r hr; omega, ?_⟩
    intro r hr n hn
    exact ⟨{ hall_id := h.id, row_index := r.row_index, seat_number := n,
             is_aisle := decide (n ∈ r.aisle_seats) },
           hseat db' h hok r hr n hn, rfl, rfl, rfl⟩
  · intro db' h hok p2 db'' sh hp2 hok2 r hr n hn
    obtain ⟨_, hss⟩ := create_show_ok hok2
    have hmem := hseat db' h hok r hr n hn
    refine ⟨{ show_id := sh.id, row_index := r.row_index, seat_number := n,
              status := SeatStatus.available, booking_id := none }, ?_,
            rfl, rfl, rfl, rfl, rfl⟩
    rw [hss, List.mem_append]
    right
    refine List.mem_map.mpr
      ⟨{ hall_id := h.id, row_index := r.row_index, seat_number := n,
         is_aisle := decide (n ∈ r.aisle_seats) }, ?_, rfl⟩
    rw [List.mem_filter]
    exact ⟨hmem, by simp [hp2]⟩

/-- Concrete instantiation of `C10_min_row_size`: a payload with a 5-seat
row is rejected and leaves the state unchanged, and after creating the
6-seat hall and a show over it, seat 3 of row 1 exists as an available
show-seat record. -/
theorem C10_witness :
    ((create_hall dbTheater 1
        { name := "h", rows := [{ row_index := 1, seat_count := 5, aisle_seats := [] }] }).1 =
          dbTheater ∧
      ∃ e, (create_hall dbTheater 1
        { name := "h", rows := [{ row_index := 1, seat_count := 5, aisle_seats := [] }] }).2 =
          Except.error e) ∧
    (∃ ss ∈ (create_show (create_hall dbTheater 1 hallPayload).1
        { movie_id := 1, hall_id := 1, start_time := 0, price := 100 }).1.show_seats,
      ss.show_id = 1 ∧ ss.row_index = 1 ∧ ss.seat_number = 3 ∧
        ss.status = SeatStatus.available ∧ ss.booking_id = none) := by
  constructor
  · exact (C10_min_row_size dbTheater 1
      { name := "h", rows := [{ row_index := 1, seat_count := 5, aisle_seats := [] }] }).1
      ⟨{ row_index := 1, seat_count := 5, aisle_seats := [] }, List.mem_singleton.mpr rfl,
        by decide⟩
  · exact (C10_min_row_size dbTheater 1 hallPayload).2.2
      (create_hall dbTheater 1 hallPayload).1
      { id := 1, theater_id := 1, name := "h" } rfl
      { movie_id := 1, hall_id := 1, start_time := 0, price := 100 }
      (create_show (create_hall dbTheater 1 hallPayload).1
        { movie_id := 1, hall_id := 1, start_time := 0, price := 100 }).1
      { id := 1, movie_id := 1, hall_id := 1, start_time := 0, price := 100 }
      rfl rfl
      { row_index := 1, seat_count := 6, aisle_seats := [] }
      (List.mem_singleton.mpr rfl) 3 (by decide)

/-! ## Lemmas for the booking read-back (C7) -/

theorem seatsNow_pairs_nodup {db : DB} {sid : Nat} {c : List (Nat × Nat)}
    (hnd : SeatKeysNodup db) :
    ((seatsNow db sid c).map fun s => (s.row_index, s.seat_number)).Nodup := by
  have hsub : (seatsNow db sid c).Sublist db.show_seats := List.filter_sublist _
  have h1 : ((seatsNow db sid c).map fun s =>
      (s.show_id, s.row_index, s.seat_number)).Nodup :=
    (hsub.map _).nodup hnd
  have h2 : List.Pairwise (fun a b : ShowSeat =>
      (a.show_id, a.row_index, a.seat_number) ≠ (b.show_id, b.row_index, b.seat_number))
      (seatsNow db sid c) := List.pairwise_map.mp h1
  have h3 : List.Pairwise (fun a b : ShowSeat =>
      (a.row_index, a.seat_number) ≠ (b.row_index, b.seat_number)) (seatsNow db sid c) := by
    refine h2.imp_of_mem ?_
    intro a b ha hb hne heq
    have hsa : a.show_id = sid := (mem_seatsNow.mp ha).2.1
    have hsb : b.show_id = sid := (mem_seatsNow.mp hb).2.1
    apply hne
    rw [Prod.mk.injEq]
    exact ⟨hsa.trans hsb.symm, heq⟩
  exact List.pairwise_map.mpr h3

theorem find_contiguous_some_nodup {db : DB} {sid : Nat} {k : Int}
    {block : List (Nat × Nat)}
    (h : find_contiguous_in_show db sid k = some block) : block.Nodup := by
  obtain ⟨r, v, hshape⟩ := find_contiguous_some_shape h
  rw [hshape]
  refine List.Nodup.map ?_ (List.nodup_range' _ _)
  intro a b hab
  exact ((Prod.mk.injEq _ _ _ _).mp hab).2

/-- C7: after a successful `book_group` returning booking id B and seat
list S on a well-formed state (unique seat keys, booking ids below the
autoincrement counter), `get_booking` on B succeeds and returns B's show id
and exactly the seat pairs S (as a set: the read-back list is a permutation
of S). -/
theorem C7_roundtrip {db db' : DB} {p : BookingRequest} {resp : BookingResponse}
    (hnd : SeatKeysNodup db) (hids : BookingIdsBounded db)
    (h : book_group db p = (db', Except.ok resp)) :
    ∃ view, get_booking db' resp.booking_id = some view ∧
      view.show_id = p.show_id ∧ view.seats.Perm resp.seats := by
  obtain ⟨c, _, hf, hchk, hdb, hresp⟩ := book_group_ok_iff.mp h
  have hbid : resp.booking_id = db.next_booking_id := by rw [hresp]
  have hseats : resp.seats = c := by rw [hresp]
  subst hdb
  unfold get_booking
  have hfind : (commitDB db p c).bookings.find? (fun b => decide (b.id = resp.booking_id)) =
      some { id := db.next_booking_id, show_id := p.show_id, group_name := p.group_name } := by
    have hstep : (commitDB db p c).bookings = db.bookings ++
        [{ id := db.next_booking_id, show_id := p.show_id, group_name := p.group_name }] := rfl
    rw [hstep, List.find?_append]
    have h1 : db.bookings.find? (fun b => decide (b.id = resp.booking_id)) = none := by
      rw [List.find?_eq_none]
      intro b hb
      have := hids.1 b hb
      simp only [decide_eq_true_iff]
      omega
    rw [h1]
    simp [List.find?, hbid]
  rw [hfind]
  refine ⟨_, rfl, rfl, ?_⟩
  have hmapstep : (commitDB db p c).show_seats = db.show_seats.map (fun s =>
      if decide (s.show_id = p.show_id ∧ (s.row_index, s.seat_number) ∈ c) then
        { s with status := SeatStatus.booked, booking_id := some db.next_booking_id }
      else s) := rfl
  rw [hmapstep, List.filter_map]
  have hfc : db.show_seats.filter ((fun s => decide (s.booking_id = some resp.booking_id)) ∘
      (fun s =>
        if decide (s.show_id = p.show_id ∧ (s.row_index, s.seat_number) ∈ c) then
          { s with status := SeatStatus.booked, booking_id := some db.next_booking_id }
        else s)) = seatsNow db p.show_id c := by
    unfold seatsNow
    refine List.filter_congr ?_
    intro s hs
    by_cases hm : s.show_id = p.show_id ∧ (s.row_index, s.seat_number) ∈ c
    · rw [Function.comp_apply, if_pos (by simpa using hm)]
      simp [hm, hbid]
    · rw [Function.comp_apply, if_neg (by simpa using hm)]
      have hnotmine : ¬ s.booking_id = some resp.booking_id := by
        intro hbad
        have := hids.2 s hs db.next_booking_id (by rw [hbad, hbid])
        omega
      simp [hnotmine, hm]
  rw [hfc, List.map_map]
  have hproj : (seatsNow db p.show_id c).map ((fun s : ShowSeat => (s.row_index, s.seat_number)) ∘
      (fun s =>
        if decide (s.show_id = p.show_id ∧ (s.row_index, s.seat_number) ∈ c) then
          { s with status := SeatStatus.booked, booking_id := some db.next_booking_id }
        else s)) = (seatsNow db p.show_id c).map (fun s => (s.row_index, s.seat_number)) := by
    refine List.map_congr_left ?_
    intro s _
    rw [Function.comp_apply]
    by_cases hm : s.show_id = p.show_id ∧ (s.row_index, s.seat_number) ∈ c
    · rw [if_pos (by simpa using hm)]
    · rw [if_neg (by simpa using hm)]
  rw [hproj, hseats]
  have hnodup := @seatsNow_pairs_nodup db p.show_id c hnd
  have hsubset : ((seatsNow db p.show_id c).map fun s => (s.row_index, s.seat_number)) ⊆ c := by
    intro pr hpr
    rw [List.mem_map] at hpr
    obtain ⟨s, hsmem, hpr⟩ := hpr
    rw [← hpr]
    exact (mem_seatsNow.mp hsmem).2.2
  have hlen : ((seatsNow db p.show_id c).map fun s => (s.row_index, s.seat_number)).length =
      c.length := by
    rw [List.length_map]
    exact (seatCheckFails_eq_false_iff.mp hchk).2
  exact (hnodup.subperm hsubset).perm_of_length_le (by omega)

/-- Concrete instantiation of `C7_roundtrip`: booking two seats in the
six-seat single-row state and reading the booking back. -/
theorem C7_witness :
    ∃ view, get_booking
      (book_group dbOneRow { show_id := 1, group_name := none, seats_requested := 2 }).1
      ({ booking_id := 1, seats := [(1, 1), (1, 2)] } : BookingResponse).booking_id = some view ∧
      view.show_id = 1 ∧
      view.seats.Perm ({ booking_id := 1, seats := [(1, 1), (1, 2)] } : BookingResponse).seats :=
  @C7_roundtrip dbOneRow
    (book_group dbOneRow { show_id := 1, group_name := none, seats_requested := 2 }).1
    { show_id := 1, group_name := none, seats_requested := 2 }
    { booking_id := 1, seats := [(1, 1), (1, 2)] }
    (by unfold SeatKeysNodup; decide)
    ⟨by decide, fun s hs b hb => by
      have hnone : s.booking_id = none :=
        (by decide : ∀ s2 ∈ dbOneRow.show_seats, s2.booking_id = none) s hs
      rw [hnone] at hb
      exact Option.noConfusion hb⟩
    rfl

/-- C8: for any state and group size at least 1, `suggest_other_shows`
returns exactly the records of the shows whose start time lies within the
(inclusive) 180-minute window around the target start time and on which
the Block Finder succeeds; each record carries the show id, its start time
and the found block; the output is ordered by start time ascending; and no
same-movie restriction appears anywhere in the characterization. -/
theorem C8_suggestions (db : DB) (target : Show) (k : Int) (hk : 1 ≤ k) :
    (∀ rec, rec ∈ suggest_other_shows db target k 180 ↔
      ∃ s ∈ db.shows, target.start_time - 180 ≤ s.start_time ∧
        s.start_time ≤ target.start_time + 180 ∧
        ∃ block, find_contiguous_in_show db s.id k = some block ∧
          rec = { show_id := s.id, start_time := s.start_time, seats := block }) ∧
    (suggest_other_shows db target k 180).Pairwise
      (fun a b => a.start_time ≤ b.start_time) := by
  have hunfold : suggest_other_shows db target k 180 =
      (List.insertionSort showLe (db.shows.filter fun s =>
        decide (target.start_time - 180 ≤ s.start_time ∧
          s.start_time ≤ target.start_time + 180))).filterMap (fun s =>
        match find_contiguous_in_show db s.id k with
        | some [] => none
        | some c => some { show_id := s.id, start_time := s.start_time, seats := c }
        | none => none) := rfl
  have hg_some : ∀ (s : Show) (rec : Suggestion),
      ((match find_contiguous_in_show db s.id k with
        | some [] => none
        | some c => some { show_id := s.id, start_time := s.start_time, seats := c }
        | none => none) = some rec) ↔
      ∃ block, find_contiguous_in_show db s.id k = some block ∧
        rec = { show_id := s.id, start_time := s.start_time, seats := block } := by
    intro s rec
    rcases hfind2 : find_contiguous_in_show db s.id k with _ | c
    · simp
    · cases c with
      | nil =>
        exfalso
        have := find_contiguous_some_length hk hfind2
        simp only [List.length_nil] at this
        omega
      | cons x xs =>
        simp only [Option.some.injEq]
        constructor
        · intro hx
          exact ⟨x :: xs, rfl, hx.symm⟩
        · rintro ⟨block, hb, hrec⟩
          rw [hrec, ← hb]
  refine ⟨?_, ?_⟩
  · intro rec
    rw [hunfold, List.mem_filterMap]
    constructor
    · rintro ⟨s, hs, hgs⟩
      rw [hg_some s rec] at hgs
      obtain ⟨block, hb, hrec⟩ := hgs
      rw [List.mem_insertionSort, List.mem_filter, decide_eq_true_iff] at hs
      exact ⟨s, hs.1, hs.2.1, hs.2.2, block, hb, hrec⟩
    · rintro ⟨s, hsdb, h1, h2, block, hb, hrec⟩
      refine ⟨s, ?_, ?_⟩
      · rw [List.mem_insertionSort, List.mem_filter, decide_eq_true_iff]
        exact ⟨hsdb, h1, h2⟩
      · rw [hg_some s rec]
        exact ⟨block, hb, hrec⟩
  · rw [hunfold]
    have hsorted : List.Sorted showLe (List.insertionSort showLe
        (db.shows.filter fun s => decide (target.start_time - 180 ≤ s.start_time ∧
          s.start_time ≤ target.start_time + 180))) :=
      List.sorted_insertionSort showLe _
    refine List.Pairwise.filterMap _ ?_ hsorted
    intro a b hab x hx y hy
    rw [Option.mem_def, hg_some a x] at hx
    rw [Option.mem_def, hg_some b y] at hy
    obtain ⟨_, _, hxa⟩ := hx
    obtain ⟨_, _, hyb⟩ := hy
    rw [hxa, hyb]
    exact hab

/-- Concrete instantiation of `C8_suggestions`: the suggestion list of the
three-show state is sorted by start time. -/
theorem C8_witness :
    (suggest_other_shows dbSuggest showTarget 2 180).Pairwise
      (fun a b => a.start_time ≤ b.start_time) :=
  (C8_suggestions dbSuggest showTarget 2 (by decide)).2

/-! ## Value characterization of the grouping dictionary (towards C4) -/

theorem lookupRow_insertRow_self (acc : List (Nat × List Nat)) (r sn : Nat) :
    lookupRow (insertRow acc r sn) r = lookupRow acc r ++ [sn] := by
  induction acc with
  | nil => simp [insertRow, lookupRow]
  | cons hd tl ih =>
    obtain ⟨r0, l0⟩ := hd
    have hdef : insertRow ((r0, l0) :: tl) r sn =
        if r0 = r then (r0, l0 ++ [sn]) :: tl else (r0, l0) :: insertRow tl r sn := rfl
    rw [hdef]
    by_cases h : r0 = r
    · rw [if_pos h]
      simp [lookupRow, h]
    · rw [if_neg h]
      simp [lookupRow, h, ih]

theorem lookupRow_insertRow_other (acc : List (Nat × List Nat)) (r sn r' : Nat)
    (h : r' ≠ r) : lookupRow (insertRow acc r sn) r' = lookupRow acc r' := by
  induction acc with
  | nil =>
    have hne : r ≠ r' := fun he => h he.symm
    simp [insertRow, lookupRow, hne]
  | cons hd tl ih =>
    obtain ⟨r0, l0⟩ := hd
    have hdef : insertRow ((r0, l0) :: tl) r sn =
        if r0 = r then (r0, l0 ++ [sn]) :: tl else (r0, l0) :: insertRow tl r sn := rfl
    rw [hdef]
    by_cases h0 : r0 = r
    · rw [if_pos h0]
      have hne : r0 ≠ r' := fun he => h (he ▸ h0 : r' = r)
      simp [lookupRow, hne]
    · rw [if_neg h0]
      by_cases h1 : r0 = r'
      · simp [lookupRow, h1]
      · simp [lookupRow, h1, ih]

theorem lookupRow_groupAvail_aux (seats : List ShowSeat) :
    ∀ (acc : List (Nat × List Nat)) (r : Nat),
      lookupRow (seats.foldl (fun acc s =>
        if s.status = SeatStatus.available then insertRow acc s.row_index s.seat_number
        else acc) acc) r =
      lookupRow acc r ++ (seats.filter fun s =>
        decide (s.status = SeatStatus.available ∧ s.row_index = r)).map
          (fun s => s.seat_number) := by
  induction seats with
  | nil => intro acc r; simp
  | cons s tl ih =>
    intro acc r
    rw [List.foldl_cons]
    by_cases hst : s.status = SeatStatus.available
    · rw [if_pos hst]
      by_cases hr : s.row_index = r
      · subst hr
        rw [ih, lookupRow_insertRow_self,
          List.filter_cons_of_pos (by simp [hst]), List.map_cons, List.append_assoc,
          List.singleton_append]
      · rw [ih, lookupRow_insertRow_other _ _ _ _ (fun he => hr he.symm),
          List.filter_cons_of_neg (by simp [hr])]
    · rw [if_neg hst]
      rw [ih, List.filter_cons_of_neg (by simp [hst])]

theorem lookupRow_groupAvail (L : List ShowSeat) (r : Nat) :
    lookupRow (groupAvail L) r = (L.filter fun s =>
      decide (s.status = SeatStatus.available ∧ s.row_index = r)).map
        (fun s => s.seat_number) := by
  unfold groupAvail
  rw [lookupRow_groupAvail_aux]
  simp [lookupRow]

theorem mem_lookupRow_groupAvail {L : List ShowSeat} {r sn : Nat} :
    sn ∈ lookupRow (groupAvail L) r ↔
      ∃ s ∈ L, s.status = SeatStatus.available ∧ s.row_index = r ∧
        s.seat_number = sn := by
  rw [lookupRow_groupAvail, List.mem_map]
  constructor
  · rintro ⟨s, hsf, hsn⟩
    rw [List.mem_filter, decide_eq_true_iff] at hsf
    exact ⟨s, hsf.1, hsf.2.1, hsf.2.2, hsn⟩
  · rintro ⟨s, hsL, hav, hrow, hsn⟩
    exact ⟨s, List.mem_filter.mpr ⟨hsL, by simp [hav, hrow]⟩, hsn⟩

theorem lookupRow_groupAvail_nodup {db : DB} {sid r : Nat} (hnd : SeatKeysNodup db) :
    (lookupRow (groupAvail (seatsForShow db sid)) r).Nodup := by
  rw [lookupRow_groupAvail]
  have hLnd : ((seatsForShow db sid).map fun s =>
      (s.show_id, s.row_index, s.seat_number)).Nodup := by
    have hperm : (seatsForShow db sid).Perm
        (db.show_seats.filter fun s => decide (s.show_id = sid)) :=
      List.perm_insertionSort seatLe _
    have hsub : ((db.show_seats.filter fun s => decide (s.show_id = sid)).map fun s =>
        (s.show_id, s.row_index, s.seat_number)).Nodup :=
      ((List.filter_sublist _).map _).nodup hnd
    exact ((hperm.map _).nodup_iff).mpr hsub
  have hFsub : ((seatsForShow db sid).filter fun s =>
      decide (s.status = SeatStatus.available ∧ s.row_index = r)).Sublist
      (seatsForShow db sid) := List.filter_sublist _
  have hFnd : (((seatsForShow db sid).filter fun s =>
      decide (s.status = SeatStatus.available ∧ s.row_index = r)).map fun s =>
      (s.show_id, s.row_index, s.seat_number)).Nodup := (hFsub.map _).nodup hLnd
  have h2 := List.pairwise_map.mp hFnd
  refine List.pairwise_map.mpr (h2.imp_of_mem ?_)
  intro a b ha hb hne heq
  rw [List.mem_filter, decide_eq_true_iff] at ha hb
  apply hne
  have hsa : a.show_id = sid := (mem_seatsForShow.mp ha.1).2
  have hsb : b.show_id = sid := (mem_seatsForShow.mp hb.1).2
  have hra : a.row_index = r := ha.2.2
  have hrb : b.row_index = r := hb.2.2
  rw [Prod.mk.injEq, Prod.mk.injEq]
  exact ⟨hsa.trans hsb.symm, hra.trans hrb.symm, heq⟩

/-! ## Key-order characterization of the grouping dictionary (towards C4) -/

theorem rowKeys_insertRow (acc : List (Nat × List Nat)) (r sn : Nat) :
    rowKeys (insertRow acc r sn) =
      if r ∈ rowKeys acc then rowKeys acc else rowKeys acc ++ [r] := by
  induction acc with
  | nil => simp [insertRow, rowKeys]
  | cons hd tl ih =>
    obtain ⟨r0, l0⟩ := hd
    have hdef : insertRow ((r0, l0) :: tl) r sn =
        if r0 = r then (r0, l0 ++ [sn]) :: tl else (r0, l0) :: insertRow tl r sn := rfl
    rw [hdef]
    by_cases h : r0 = r
    · rw [if_pos h]
      have hmem : r ∈ rowKeys ((r0, l0) :: tl) := by
        simp [rowKeys, h.symm]
      rw [if_pos hmem]
      simp [rowKeys]
    · rw [if_neg h]
      have hcons : rowKeys ((r0, l0) :: insertRow tl r sn) =
          r0 :: rowKeys (insertRow tl r sn) := rfl
      have hcons2 : rowKeys ((r0, l0) :: tl) = r0 :: rowKeys tl := rfl
      rw [hcons, ih, hcons2]
      by_cases hm : r ∈ rowKeys tl
      · rw [if_pos hm, if_pos (List.mem_cons_of_mem _ hm)]
      · rw [if_neg hm, if_neg ?_]
        · rfl
        · intro hcontra
          rcases List.mem_cons.mp hcontra with hcontra | hcontra
          · exact h hcontra.symm
          · exact hm hcontra

theorem rowKeys_groupAvail_aux (seats : List ShowSeat) :
    ∀ (acc : List (Nat × List Nat)),
      List.Pairwise (fun a b : ShowSeat => a.row_index ≤ b.row_index) seats →
      List.Pairwise (· < ·) (rowKeys acc) →
      (∀ s ∈ seats, ∀ kk ∈ rowKeys acc, kk ≤ s.row_index) →
      List.Pairwise (· < ·) (rowKeys (seats.foldl (fun acc s =>
        if s.status = SeatStatus.available then insertRow acc s.row_index s.seat_number
        else acc) acc)) ∧
      (∀ r, r ∈ rowKeys (seats.foldl (fun acc s =>
        if s.status = SeatStatus.available then insertRow acc s.row_index s.seat_number
        else acc) acc) ↔
        r ∈ rowKeys acc ∨
          ∃ s ∈ seats, s.status = SeatStatus.available ∧ s.row_index = r) := by
  induction seats with
  | nil =>
    intro acc _ hacc _
    refine ⟨hacc, fun r => ?_⟩
    simp
  | cons s tl ih =>
    intro acc hsort hacc hbound
    rw [List.foldl_cons]
    rw [List.pairwise_cons] at hsort
    obtain ⟨hhead, htl⟩ := hsort
    by_cases hst : s.status = SeatStatus.available
    · rw [if_pos hst]
      have hkeys := rowKeys_insertRow acc s.row_index s.seat_number
      by_cases hm : s.row_index ∈ rowKeys acc
      · rw [if_pos hm] at hkeys
        have hacc2 : List.Pairwise (· < ·)
            (rowKeys (insertRow acc s.row_index s.seat_number)) := by
          rw [hkeys]; exact hacc
        have hbound2 : ∀ s2 ∈ tl,
            ∀ kk ∈ rowKeys (insertRow acc s.row_index s.seat_number),
              kk ≤ s2.row_index := by
          intro s2 hs2 kk hkk
          rw [hkeys] at hkk
          exact le_trans (hbound s (List.mem_cons_self _ _) kk hkk) (hhead s2 hs2)
        obtain ⟨hp, hiff⟩ := ih _ htl hacc2 hbound2
        refine ⟨hp, fun r => ?_⟩
        rw [hiff, hkeys]
        constructor
        · rintro (h | ⟨s2, hs2, h1, h2⟩)
          · exact Or.inl h
          · exact Or.inr ⟨s2, List.mem_cons_of_mem _ hs2, h1, h2⟩
        · rintro (h | ⟨s2, hs2, h1, h2⟩)
          · exact Or.inl h
          · rcases List.mem_cons.mp hs2 with he | he
            · subst he
              exact Or.inl (h2 ▸ hm)
            · exact Or.inr ⟨s2, he, h1, h2⟩
      · rw [if_neg hm] at hkeys
        have hacc2 : List.Pairwise (· < ·)
            (rowKeys (insertRow acc s.row_index s.seat_number)) := by
          rw [hkeys, List.pairwise_append]
          refine ⟨hacc, by simp, ?_⟩
          intro a ha b hb
          rw [List.mem_singleton] at hb
          subst hb
          have h1 : a ≤ s.row_index := hbound s (List.mem_cons_self _ _) a ha
          have h2 : a ≠ s.row_index := fun he => hm (he ▸ ha)
          omega
        have hbound2 : ∀ s2 ∈ tl,
            ∀ kk ∈ rowKeys (insertRow acc s.row_index s.seat_number),
              kk ≤ s2.row_index := by
          intro s2 hs2 kk hkk
          rw [hkeys] at hkk
          rcases List.mem_append.mp hkk with h | h
          · exact le_trans (hbound s (List.mem_cons_self _ _) kk h) (hhead s2 hs2)
          · rw [List.mem_singleton] at h
            subst h
            exact hhead s2 hs2
        obtain ⟨hp, hiff⟩ := ih _ htl hacc2 hbound2
        refine ⟨hp, fun r => ?_⟩
        rw [hiff, hkeys]
        constructor
        · rintro (h | ⟨s2, hs2, h1, h2⟩)
          · rcases List.mem_append.mp h with h | h
            · exact Or.inl h
            · rw [List.mem_singleton] at h
              exact Or.inr ⟨s, List.mem_cons_self _ _, hst, h.symm⟩
          · exact Or.inr ⟨s2, List.mem_cons_of_mem _ hs2, h1, h2⟩
        · rintro (h | ⟨s2, hs2, h1, h2⟩)
          · exact Or.inl (List.mem_append.mpr (Or.inl h))
          · rcases List.mem_cons.mp hs2 with he | he
            · subst he
              exact Or.inl (List.mem_append.mpr (Or.inr (by rw [List.mem_singleton, h2])))
            · exact Or.inr ⟨s2, he, h1, h2⟩
    · rw [if_neg hst]
      obtain ⟨hp, hiff⟩ := ih acc htl hacc
        (fun s2 hs2 kk hkk => hbound s2 (List.mem_cons_of_mem _ hs2) kk hkk)
      refine ⟨hp, fun r => ?_⟩
      rw [hiff]
      constructor
      · rintro (h | ⟨s2, hs2, h1, h2⟩)
        · exact Or.inl h
        · exact Or.inr ⟨s2, List.mem_cons_of_mem _ hs2, h1, h2⟩
      · rintro (h | ⟨s2, hs2, h1, h2⟩)
        · exact Or.inl h
        · rcases List.mem_cons.mp hs2 with he | he
          · exact absurd (he ▸ h1) hst
          · exact Or.inr ⟨s2, he, h1, h2⟩

theorem rowKeys_groupAvail {db : DB} {sid : Nat} :
    List.Pairwise (· < ·) (rowKeys (groupAvail (seatsForShow db sid))) ∧
    (∀ r, r ∈ rowKeys (groupAvail (seatsForShow db sid)) ↔
      ∃ s ∈ seatsForShow db sid,
        s.status = SeatStatus.available ∧ s.row_index = r) := by
  have hsorted : List.Pairwise (fun a b : ShowSeat => a.row_index ≤ b.row_index)
      (seatsForShow db sid) := by
    refine (List.sorted_insertionSort seatLe _).imp ?_
    intro a b hab
    unfold seatLe at hab
    omega
  have h := rowKeys_groupAvail_aux (seatsForShow db sid) [] hsorted (by simp [rowKeys])
    (by simp [rowKeys])
  unfold groupAvail
  refine ⟨h.1, fun r => ?_⟩
  rw [h.2 r]
  simp [rowKeys]

theorem entry_eq_lookupRow {acc : List (Nat × List Nat)} (hnd : (rowKeys acc).Nodup)
    {r : Nat} {lr : List Nat} (he : (r, lr) ∈ acc) : lookupRow acc r = lr := by
  induction acc with
  | nil => exact absurd he (List.not_mem_nil _)
  | cons hd tl ih =>
    obtain ⟨r0, l0⟩ := hd
    have hcons : rowKeys ((r0, l0) :: tl) = r0 :: rowKeys tl := rfl
    rw [hcons, List.nodup_cons] at hnd
    rcases List.mem_cons.mp he with he1 | he1
    · rw [Prod.mk.injEq] at he1
      obtain ⟨h1, h2⟩ := he1
      simp [lookupRow, h1, h2]
    · have hr0 : r0 ≠ r := by
        intro hcontra
        subst hcontra
        exact hnd.1 (List.mem_map.mpr ⟨(r0, lr), he1, rfl⟩)
      simp [lookupRow, hr0, ih hnd.2 he1]

theorem mem_rowKeys_exists_entry {acc : List (Nat × List Nat)} {r : Nat}
    (h : r ∈ rowKeys acc) : ∃ lr, (r, lr) ∈ acc := by
  unfold rowKeys at h
  rw [List.mem_map] at h
  obtain ⟨rs, hmem, heq⟩ := h
  obtain ⟨r1, lr⟩ := rs
  exact ⟨lr, by rw [show r1 = r from heq] at hmem; exact hmem⟩

/-! ## Sliding-window lemmas over a strictly sorted row (towards C4) -/

theorem sorted_get_le {s : List Nat} (hs : List.Pairwise (· < ·) s)
    (i j : Fin s.length) (hij : (i : Nat) ≤ (j : Nat)) : s.get i ≤ s.get j := by
  rcases Nat.eq_or_lt_of_le hij with he | hlt
  · rw [Fin.ext he]
  · exact le_of_lt (List.pairwise_iff_get.mp hs i j hlt)

theorem run_window {s : List Nat} (hs : List.Pairwise (· < ·) s) {v kN : Nat}
    (hkN : 1 ≤ kN) (hrun : ∀ x ∈ List.range' v kN, x ∈ s) :
    ∃ i : Nat, ∃ hik : i + kN ≤ s.length,
      s.get ⟨i, by omega⟩ = v ∧ (s.drop i).take kN = List.range' v kN := by
  have hv : v ∈ s := hrun v (by rw [List.mem_range']; exact ⟨0, by omega, by omega⟩)
  obtain ⟨⟨i, hi⟩, hgi⟩ := List.mem_iff_get.mp hv
  have key : ∀ j, j < kN → ∃ hj : i + j < s.length, s.get ⟨i + j, hj⟩ = v + j := by
    intro j
    induction j with
    | zero =>
      intro _
      refine ⟨by omega, ?_⟩
      have hfin : (⟨i + 0, by omega⟩ : Fin s.length) = ⟨i, hi⟩ := by
        apply Fin.ext
        simp
      rw [hfin, hgi]
      omega
    | succ j ihj =>
      intro hjk
      obtain ⟨hij, hsij⟩ := ihj (by omega)
      have hmem : v + (j + 1) ∈ s :=
        hrun _ (by rw [List.mem_range']; exact ⟨j + 1, hjk, by omega⟩)
      obtain ⟨⟨m, hm⟩, hgm⟩ := List.mem_iff_get.mp hmem
      have hgt : i + j < m := by
        by_contra hle2
        push_neg at hle2
        have hle3 : s.get ⟨m, hm⟩ ≤ s.get ⟨i + j, hij⟩ :=
          sorted_get_le hs ⟨m, hm⟩ ⟨i + j, hij⟩ hle2
        rw [hgm, hsij] at hle3
        omega
      have hij1 : i + (j + 1) < s.length := by omega
      have hle4 : s.get ⟨i + (j + 1), hij1⟩ ≤ s.get ⟨m, hm⟩ :=
        sorted_get_le hs ⟨i + (j + 1), hij1⟩ ⟨m, hm⟩ (by show i + (j + 1) ≤ m; omega)
      have hlt5 : s.get ⟨i + j, hij⟩ < s.get ⟨i + (j + 1), hij1⟩ :=
        List.pairwise_iff_get.mp hs ⟨i + j, hij⟩ ⟨i + (j + 1), hij1⟩
          (by show i + j < i + (j + 1); omega)
      rw [hgm] at hle4
      rw [hsij] at hlt5
      exact ⟨hij1, by omega⟩
  have hik : i + kN ≤ s.length := by
    obtain ⟨hj, _⟩ := key (kN - 1) (by omega)
    omega
  refine ⟨i, hik, hgi, ?_⟩
  apply List.ext_getElem
  · rw [List.length_take, List.length_drop, List.length_range']
    omega
  · intro j h1 h2
    rw [List.length_range'] at h2
    rw [List.getElem_take, List.getElem_drop, List.getElem_range']
    obtain ⟨hj2, hval⟩ := key j h2
    rw [List.get_eq_getElem] at hval
    rw [hval]
    omega

theorem take_drop_headD {s : List Nat} {i kN : Nat} (hkN : 1 ≤ kN)
    (hi : i < s.length) :
    ((s.drop i).take kN).headD 0 = s.get ⟨i, hi⟩ := by
  have hdrop : s.drop i = s[i] :: s.drop (i + 1) := List.drop_eq_getElem_cons hi
  obtain ⟨m, hm⟩ : ∃ m, kN = m + 1 := ⟨kN - 1, by omega⟩
  rw [hdrop, hm, List.take_succ_cons, List.headD_cons, List.get_eq_getElem]

theorem window_length {s : List Nat} {i kN : Nat} (hik : i + kN ≤ s.length) :
    ((s.drop i).take kN).length = kN := by
  rw [List.length_take, List.length_drop]
  omega

theorem isConsecutive_range' (v kN : Nat) (hkN : 1 ≤ kN) :
    isConsecutive (List.range' v kN) = true := by
  rw [isConsecutive_eq_true_iff]
  have h1 : (List.range' v kN).headD 0 = v := by
    obtain ⟨m, hm⟩ : ∃ m, kN = m + 1 := ⟨kN - 1, by omega⟩
    rw [hm, List.range'_succ, List.headD_cons]
  rw [h1, List.length_range']

theorem findRun_range'_some_iff {s : List Nat} {k : Int} {w : List Nat} :
    ∀ (n a : Nat), (findRun s k (List.range' a n) = some w ↔
      ∃ i, a ≤ i ∧ i < a + n ∧
        isConsecutive (pySlice s i ((i : Int) + k)) = true ∧
        w = pySlice s i ((i : Int) + k) ∧
        ∀ j, a ≤ j → j < i →
          isConsecutive (pySlice s j ((j : Int) + k)) = false) := by
  intro n
  induction n with
  | zero =>
    intro a
    constructor
    · intro h
      exact absurd h (by simp [findRun])
    · rintro ⟨i, h1, h2, _⟩
      omega
  | succ n ihn =>
    intro a
    rw [List.range'_succ]
    have hdef : findRun s k (a :: List.range' (a + 1) n) =
        if isConsecutive (pySlice s a ((a : Int) + k)) then
          some (pySlice s a ((a : Int) + k))
        else findRun s k (List.range' (a + 1) n) := rfl
    rw [hdef]
    by_cases hc : isConsecutive (pySlice s a ((a : Int) + k)) = true
    · rw [if_pos hc]
      constructor
      · intro h
        refine ⟨a, le_refl a, by omega, hc, (Option.some.inj h).symm, ?_⟩
        intro j hj1 hj2
        exact absurd (lt_of_le_of_lt hj1 hj2) (lt_irrefl a)
      · rintro ⟨i, h1, h2, hci, hwi, hmin⟩
        have hia : i = a := by
          by_contra hne
          have hfalse := hmin a (le_refl a) (by omega)
          exact Bool.noConfusion (hfalse.symm.trans hc)
        subst hia
        rw [hwi]
    · rw [if_neg hc]
      rw [ihn (a + 1)]
      have hcfalse : isConsecutive (pySlice s a ((a : Int) + k)) = false := by
        cases hb : isConsecutive (pySlice s a ((a : Int) + k)) with
        | false => rfl
        | true => exact absurd hb hc
      constructor
      · rintro ⟨i, h1, h2, hci, hwi, hmin⟩
        refine ⟨i, by omega, by omega, hci, hwi, ?_⟩
        intro j hj1 hj2
        rcases Nat.eq_or_lt_of_le hj1 with he | hlt
        · rw [← he]
          exact hcfalse
        · exact hmin j (by omega) hj2
      · rintro ⟨i, h1, h2, hci, hwi, hmin⟩
        have hia : i ≠ a := by
          intro he
          rw [he] at hci
          exact Bool.noConfusion (hcfalse.symm.trans hci)
        exact ⟨i, by omega, by omega, hci, hwi, fun j hj1 hj2 => hmin j (by omega) hj2⟩

theorem findRun_range'_none_iff {s : List Nat} {k : Int} :
    ∀ (n a : Nat), (findRun s k (List.range' a n) = none ↔
      ∀ i, a ≤ i → i < a + n →
        isConsecutive (pySlice s i ((i : Int) + k)) = false) := by
  intro n
  induction n with
  | zero =>
    intro a
    constructor
    · intro _ i h1 h2
      exact absurd (lt_of_le_of_lt h1 h2) (lt_irrefl a)
    · intro _
      rfl
  | succ n ihn =>
    intro a
    rw [List.range'_succ]
    have hdef : findRun s k (a :: List.range' (a + 1) n) =
        if isConsecutive (pySlice s a ((a : Int) + k)) then
          some (pySlice s a ((a : Int) + k))
        else findRun s k (List.range' (a + 1) n) := rfl
    rw [hdef]
    by_cases hc : isConsecutive (pySlice s a ((a : Int) + k)) = true
    · rw [if_pos hc]
      constructor
      · intro h
        exact Option.noConfusion h
      · intro h
        have := h a (le_refl a) (by omega)
        exact Bool.noConfusion (this.symm.trans hc)
    · rw [if_neg hc]
      rw [ihn (a + 1)]
      have hcfalse : isConsecutive (pySlice s a ((a : Int) + k)) = false := by
        cases hb : isConsecutive (pySlice s a ((a : Int) + k)) with
        | false => rfl
        | true => exact absurd hb hc
      constructor
      · intro h i h1 h2
        rcases Nat.eq_or_lt_of_le h1 with he | hlt
        · rw [← he]
          exact hcfalse
        · exact h i (by omega) (by omega)
      · intro h i h1 h2
        exact h i (by omega) (by omega)

theorem findInRow_characterization {l : List Nat} {k : Int} (hk : 1 ≤ k)
    (hnd : l.Nodup) :
    (findInRow l k = none ↔
      ∀ v, ¬ ∀ x ∈ List.range' v k.toNat, x ∈ l) ∧
    (∀ w, findInRow l k = some w →
      ∃ v, w = List.range' v k.toNat ∧ (∀ x ∈ List.range' v k.toNat, x ∈ l) ∧
        ∀ v2, (∀ x ∈ List.range' v2 k.toNat, x ∈ l) → v ≤ v2) := by
  have hkN : 1 ≤ k.toNat := by omega
  have hmem_srt : ∀ x, x ∈ List.insertionSort (· ≤ ·) l ↔ x ∈ l :=
    fun x => List.mem_insertionSort _
  have hnd_srt : (List.insertionSort (· ≤ ·) l).Nodup :=
    (List.perm_insertionSort _ _).nodup_iff.mpr hnd
  have hsorted : List.Pairwise (· < ·) (List.insertionSort (· ≤ ·) l) :=
    List.Sorted.lt_of_le (List.sorted_insertionSort _ _) hnd_srt
  have hdef : findInRow l k = findRun (List.insertionSort (· ≤ ·) l) k
      (List.range (windowCount (List.insertionSort (· ≤ ·) l).length k)) := rfl
  have hw_eq : ∀ i, i + k.toNat ≤ (List.insertionSort (· ≤ ·) l).length →
      pySlice (List.insertionSort (· ≤ ·) l) i ((i : Int) + k) =
        ((List.insertionSort (· ≤ ·) l).drop i).take k.toNat :=
    fun i _ => pySlice_eq_take_drop _ i (by omega)
  have hcount : ∀ i, i < windowCount (List.insertionSort (· ≤ ·) l).length k →
      i + k.toNat ≤ (List.insertionSort (· ≤ ·) l).length := by
    intro i hi
    unfold windowCount at hi
    omega
  have hcount2 : ∀ i, i + k.toNat ≤ (List.insertionSort (· ≤ ·) l).length →
      i < windowCount (List.insertionSort (· ≤ ·) l).length k := by
    intro i hi
    unfold windowCount
    omega
  have hconsat : ∀ i (hik : i + k.toNat ≤ (List.insertionSort (· ≤ ·) l).length)
      (v : Nat), ((List.insertionSort (· ≤ ·) l).drop i).take k.toNat =
        List.range' v k.toNat →
      isConsecutive (pySlice (List.insertionSort (· ≤ ·) l) i ((i : Int) + k)) = true := by
    intro i hik v hwin
    rw [hw_eq i hik, hwin]
    exact isConsecutive_range' v k.toNat hkN
  constructor
  · rw [hdef, List.range_eq_range', findRun_range'_none_iff]
    constructor
    · intro hall v hrun
      have hrun2 : ∀ x ∈ List.range' v k.toNat, x ∈ List.insertionSort (· ≤ ·) l :=
        fun x hx => (hmem_srt x).mpr (hrun x hx)
      obtain ⟨i, hik, hgi, hwin⟩ := run_window hsorted hkN hrun2
      have hfalse := hall i (by omega) (by have := hcount2 i hik; omega)
      have htrue := hconsat i hik v hwin
      exact Bool.noConfusion (hfalse.symm.trans htrue)
    · intro hnone i h0 hi
      have hik := hcount i (by omega)
      cases hb : isConsecutive (pySlice (List.insertionSort (· ≤ ·) l) i
          ((i : Int) + k)) with
      | false => rfl
      | true =>
        exfalso
        rw [hw_eq i hik, isConsecutive_eq_true_iff, window_length hik,
          take_drop_headD hkN (by omega)] at hb
        apply hnone ((List.insertionSort (· ≤ ·) l).get ⟨i, by omega⟩)
        intro x hx
        rw [← hb] at hx
        have hxs : x ∈ List.insertionSort (· ≤ ·) l :=
          ((List.take_sublist _ _).trans (List.drop_sublist _ _)).subset hx
        exact (hmem_srt x).mp hxs
  · intro w hw
    rw [hdef, List.range_eq_range', findRun_range'_some_iff] at hw
    obtain ⟨i, h0, hicount, hci, hwi, hmin⟩ := hw
    have hik := hcount i (by omega)
    rw [hw_eq i hik] at hci hwi
    rw [isConsecutive_eq_true_iff, window_length hik,
      take_drop_headD hkN (by omega)] at hci
    refine ⟨(List.insertionSort (· ≤ ·) l).get ⟨i, by omega⟩, ?_, ?_, ?_⟩
    · rw [hwi]
      exact hci
    · intro x hx
      rw [← hci] at hx
      have hxs : x ∈ List.insertionSort (· ≤ ·) l :=
        ((List.take_sublist _ _).trans (List.drop_sublist _ _)).subset hx
      exact (hmem_srt x).mp hxs
    · intro v2 hrun2
      have hrun2s : ∀ x ∈ List.range' v2 k.toNat, x ∈ List.insertionSort (· ≤ ·) l :=
        fun x hx => (hmem_srt x).mpr (hrun2 x hx)
      obtain ⟨m, hmk, hgm, hwinm⟩ := run_window hsorted hkN hrun2s
      have hcm := hconsat m hmk v2 hwinm
      have him : i ≤ m := by
        by_contra hlt
        push_neg at hlt
        have hfalse := hmin m (by omega) hlt
        exact Bool.noConfusion (hfalse.symm.trans hcm)
      have hle := sorted_get_le hsorted ⟨i, by omega⟩ ⟨m, by omega⟩
        (by show i ≤ m; exact him)
      rw [← hgm]
      exact hle

/-! ## First-hit characterization of the row loop (towards C4) -/

theorem assoc_findSome?_some_iff {k : Int} {block : List (Nat × Nat)} :
    ∀ (acc : List (Nat × List Nat)), List.Pairwise (· < ·) (rowKeys acc) →
      ((acc.findSome? fun rs => (findInRow rs.2 k).map fun w =>
          w.map fun sn => (rs.1, sn)) = some block ↔
        ∃ r lr w, (r, lr) ∈ acc ∧ findInRow lr k = some w ∧
          block = w.map (fun sn => (r, sn)) ∧
          ∀ r2 lr2, (r2, lr2) ∈ acc → r2 < r → findInRow lr2 k = none) := by
  intro acc
  induction acc with
  | nil =>
    intro _
    constructor
    · intro h
      exact absurd h (by simp)
    · rintro ⟨r, lr, w, hmem, _⟩
      exact absurd hmem (List.not_mem_nil _)
  | cons hd tl ih =>
    intro hkeys
    obtain ⟨r0, l0⟩ := hd
    have hconskeys : rowKeys ((r0, l0) :: tl) = r0 :: rowKeys tl := rfl
    rw [hconskeys, List.pairwise_cons] at hkeys
    obtain ⟨hhead, htl⟩ := hkeys
    cases hf0 : findInRow l0 k with
    | some w0 =>
      have hstep : (((r0, l0) :: tl).findSome? fun rs => (findInRow rs.2 k).map fun w =>
          w.map fun sn => (rs.1, sn)) = some (w0.map fun sn => (r0, sn)) := by
        rw [List.findSome?_cons]
        simp [hf0]
      rw [hstep]
      constructor
      · intro h
        have hblock := (Option.some.inj h).symm
        refine ⟨r0, l0, w0, List.mem_cons_self _ _, hf0, hblock, ?_⟩
        intro r2 lr2 hmem2 hlt2
        rcases List.mem_cons.mp hmem2 with he | he
        · rw [Prod.mk.injEq] at he
          exact absurd (he.1 ▸ hlt2) (lt_irrefl r0)
        · have hgt : r0 < r2 := hhead r2 (List.mem_map.mpr ⟨(r2, lr2), he, rfl⟩)
          exact absurd hgt (by omega)
      · rintro ⟨r, lr, w, hmem, hfw, hblock, hmin⟩
        rcases List.mem_cons.mp hmem with he | he
        · rw [Prod.mk.injEq] at he
          obtain ⟨h1, h2⟩ := he
          subst h1
          subst h2
          have hww : w0 = w := Option.some.inj (hf0.symm.trans hfw)
          rw [hblock, ← hww]
        · have hr0r : r0 < r := hhead r (List.mem_map.mpr ⟨(r, lr), he, rfl⟩)
          have hzero := hmin r0 l0 (List.mem_cons_self _ _) hr0r
          exact Option.noConfusion (hzero.symm.trans hf0)
    | none =>
      have hstep : (((r0, l0) :: tl).findSome? fun rs => (findInRow rs.2 k).map fun w =>
          w.map fun sn => (rs.1, sn)) = tl.findSome? fun rs => (findInRow rs.2 k).map fun w =>
          w.map fun sn => (rs.1, sn) := by
        rw [List.findSome?_cons]
        simp [hf0]
      rw [hstep, ih htl]
      constructor
      · rintro ⟨r, lr, w, hmem, hfw, hblock, hmin⟩
        refine ⟨r, lr, w, List.mem_cons_of_mem _ hmem, hfw, hblock, ?_⟩
        intro r2 lr2 hmem2 hlt2
        rcases List.mem_cons.mp hmem2 with he | he
        · rw [Prod.mk.injEq] at he
          rw [he.2]
          exact hf0
        · exact hmin r2 lr2 he hlt2
      · rintro ⟨r, lr, w, hmem, hfw, hblock, hmin⟩
        rcases List.mem_cons.mp hmem with he | he
        · rw [Prod.mk.injEq] at he
          obtain ⟨h1, h2⟩ := he
          subst h1
          subst h2
          exact Option.noConfusion (hf0.symm.trans hfw)
        · exact ⟨r, lr, w, he, hfw, hblock,
            fun r2 lr2 hm2 hl2 => hmin r2 lr2 (List.mem_cons_of_mem _ hm2) hl2⟩

theorem assoc_findSome?_none_iff {k : Int} {acc : List (Nat × List Nat)} :
    (acc.findSome? fun rs => (findInRow rs.2 k).map fun w =>
      w.map fun sn => (rs.1, sn)) = none ↔
    ∀ r lr, (r, lr) ∈ acc → findInRow lr k = none := by
  rw [List.findSome?_eq_none]
  constructor
  · intro h r lr hmem
    exact Option.map_eq_none'.mp (h (r, lr) hmem)
  · intro h rs hmem
    obtain ⟨r, lr⟩ := rs
    show (findInRow lr k).map _ = none
    rw [h r lr hmem]
    rfl

/-- C4: full characterization of the Contiguous Block Finder.  For every
inventory snapshot satisfying the unique (show, row, seat) constraint and
every group size k at least 1, the finder (a pure function, hence
deterministic) returns none exactly when no row holds a run of k strictly
consecutive available seat numbers, and otherwise returns the run lying in
the lowest such row and, within that row, the run with the smallest
starting seat number. -/
theorem C4_finder_characterization (db : DB) (sid : Nat) (k : Int)
    (hk : 1 ≤ k) (hnd : SeatKeysNodup db) :
    (find_contiguous_in_show db sid k = none ↔
      ∀ r v, ¬ availRun db sid r v k.toNat) ∧
    (∀ block, find_contiguous_in_show db sid k = some block →
      ∃ r v, block = (List.range' v k.toNat).map (fun sn => (r, sn)) ∧
        availRun db sid r v k.toNat ∧
        (∀ r2 v2, availRun db sid r2 v2 k.toNat → r ≤ r2) ∧
        (∀ v2, availRun db sid r v2 k.toNat → v ≤ v2)) := by
  have hkN : 1 ≤ k.toNat := by omega
  have hE1 : ∀ r v, availRun db sid r v k.toNat ↔
      ∀ x ∈ List.range' v k.toNat, x ∈ lookupRow (groupAvail (seatsForShow db sid)) r := by
    intro r v
    constructor
    · intro hrun x hx
      rw [List.mem_range'] at hx
      obtain ⟨j, hj, hxe⟩ := hx
      obtain ⟨s, hs, hsid2, hrow, hseat, hav⟩ := hrun j hj
      refine mem_lookupRow_groupAvail.mpr ⟨s, mem_seatsForShow.mpr ⟨hs, hsid2⟩, hav, hrow, ?_⟩
      rw [hseat]
      omega
    · intro hmem j hj
      have hx : v + j ∈ List.range' v k.toNat := by
        rw [List.mem_range']
        exact ⟨j, hj, by omega⟩
      obtain ⟨s, hsL, hav, hrow, hseat⟩ := mem_lookupRow_groupAvail.mp (hmem _ hx)
      obtain ⟨hsdb, hsid2⟩ := mem_seatsForShow.mp hsL
      exact ⟨s, hsdb, hsid2, hrow, hseat, hav⟩
  have hkeys := @rowKeys_groupAvail db sid
  have hkeysnd : (rowKeys (groupAvail (seatsForShow db sid))).Nodup :=
    hkeys.1.imp (fun hlt => Nat.ne_of_lt hlt)
  have hlooknd : ∀ r, (lookupRow (groupAvail (seatsForShow db sid)) r).Nodup :=
    fun r => @lookupRow_groupAvail_nodup db sid r hnd
  have hrun_key : ∀ r v, availRun db sid r v k.toNat →
      r ∈ rowKeys (groupAvail (seatsForShow db sid)) := by
    intro r v hrun
    obtain ⟨s, hs, hsid2, hrow, _, hav⟩ := hrun 0 (by omega)
    exact (hkeys.2 r).mpr ⟨s, mem_seatsForShow.mpr ⟨hs, hsid2⟩, hav, hrow⟩
  by_cases hemp : (seatsForShow db sid).isEmpty = true
  · have hfind : find_contiguous_in_show db sid k = none := by
      unfold find_contiguous_in_show
      rw [if_pos hemp]
    have hnorun : ∀ r v, ¬ availRun db sid r v k.toNat := by
      intro r v hrun
      obtain ⟨s, hs, hsid2, _, _, _⟩ := hrun 0 (by omega)
      have hmem : s ∈ seatsForShow db sid := mem_seatsForShow.mpr ⟨hs, hsid2⟩
      rw [List.isEmpty_iff.mp hemp] at hmem
      exact absurd hmem (List.not_mem_nil s)
    refine ⟨⟨fun _ => hnorun, fun _ => hfind⟩, ?_⟩
    intro block hb
    rw [hfind] at hb
    exact Option.noConfusion hb
  · have hfind : find_contiguous_in_show db sid k =
        (groupAvail (seatsForShow db sid)).findSome? fun rs =>
          (findInRow rs.2 k).map fun w => w.map fun sn => (rs.1, sn) := by
      unfold find_contiguous_in_show
      rw [if_neg hemp]
    refine ⟨?_, ?_⟩
    · rw [hfind, assoc_findSome?_none_iff]
      constructor
      · intro hall r v hrun
        obtain ⟨lr, hentry⟩ := mem_rowKeys_exists_entry (hrun_key r v hrun)
        have hlr : lookupRow (groupAvail (seatsForShow db sid)) r = lr :=
          entry_eq_lookupRow hkeysnd hentry
        have hchar := findInRow_characterization hk (hlr ▸ hlooknd r)
        apply hchar.1.mp (hall r lr hentry) v
        intro x hx
        rw [← hlr]
        exact (hE1 r v).mp hrun x hx
      · intro hnone r lr hentry
        have hlr : lookupRow (groupAvail (seatsForShow db sid)) r = lr :=
          entry_eq_lookupRow hkeysnd hentry
        have hchar := findInRow_characterization hk (hlr ▸ hlooknd r)
        apply hchar.1.mpr
        intro v hrunlr
        apply hnone r v
        apply (hE1 r v).mpr
        intro x hx
        rw [hlr]
        exact hrunlr x hx
    · intro block hb
      rw [hfind] at hb
      rw [assoc_findSome?_some_iff _ hkeys.1] at hb
      obtain ⟨r, lr, w, hentry, hfw, hblock, hmin⟩ := hb
      have hlr : lookupRow (groupAvail (seatsForShow db sid)) r = lr :=
        entry_eq_lookupRow hkeysnd hentry
      have hchar := findInRow_characterization hk (hlr ▸ hlooknd r)
      obtain ⟨v, hw, hrunlr, hminv⟩ := hchar.2 w hfw
      refine ⟨r, v, ?_, ?_, ?_, ?_⟩
      · rw [hblock, hw]
      · apply (hE1 r v).mpr
        intro x hx
        rw [hlr]
        exact hrunlr x hx
      · intro r2 v2 hrun2
        by_contra hlt
        push_neg at hlt
        obtain ⟨lr2, hentry2⟩ := mem_rowKeys_exists_entry (hrun_key r2 v2 hrun2)
        have hlr2 : lookupRow (groupAvail (seatsForShow db sid)) r2 = lr2 :=
          entry_eq_lookupRow hkeysnd hentry2
        have hchar2 := findInRow_characterization hk (hlr2 ▸ hlooknd r2)
        apply hchar2.1.mp (hmin r2 lr2 hentry2 hlt) v2
        intro x hx
        rw [← hlr2]
        exact (hE1 r2 v2).mp hrun2 x hx
      · intro v2 hrun2
        apply hminv v2
        intro x hx
        rw [← hlr]
        exact (hE1 r v2).mp hrun2 x hx

/-- Concrete instantiation of `C4_finder_characterization` at the ten-seat
scenario state with group size 3. -/
theorem C4_witness :
    (find_contiguous_in_show dbC3 1 3 = none ↔
      ∀ r v, ¬ availRun dbC3 1 r v (3 : Int).toNat) ∧
    (∀ block, find_contiguous_in_show dbC3 1 3 = some block →
      ∃ r v, block = (List.range' v (3 : Int).toNat).map (fun sn => (r, sn)) ∧
        availRun dbC3 1 r v (3 : Int).toNat ∧
        (∀ r2 v2, availRun dbC3 1 r2 v2 (3 : Int).toNat → r ≤ r2) ∧
        (∀ v2, availRun dbC3 1 r v2 (3 : Int).toNat → v ≤ v2)) :=
  C4_finder_characterization dbC3 1 3 (by decide) (by unfold SeatKeysNodup; decide)

end MovieBooking
